import Mathlib

/-!
Verification of the PDF match-report layout-reconstruction pipeline of the
volleyApp-React repository (the `VolleyPdfParser` component).

The JavaScript source is shallowly embedded: numbers carried by PDF text
tokens (`x`, `y`, `width`, `height`) are modelled as rationals (the source
rounds every coordinate to two decimal digits, so all arithmetic performed on
them is exact decimal arithmetic), strings as Lean `String`s, and JS arrays
as Lean lists.  JS `Array.prototype.sort` is stable, and is modelled by
`List.insertionSort`, which is also stable.  All definitions are executable.
-/

namespace Volley

/-! ### JS string primitives

The inputs manipulated by the parser are ASCII/Latin-1 text extracted from
PDF reports; the JS string methods used by the source (`trim`,
`toLowerCase`, `includes`, `split`, …) are modelled character-wise over that
alphabet. -/

/-- The whitespace characters recognised by JS `\s` / `trim` that can occur
in the parser's inputs (space, tab, LF, CR, VT, FF). -/
def isWsChar (c : Char) : Bool :=
  c = ' ' || c = '\t' || c = '\n' || c = '\r' || c = '\x0b' || c = '\x0c'

/-- JS `String.prototype.trim`. -/
def jsTrim (s : String) : String :=
  String.mk (((s.toList.dropWhile isWsChar).reverse.dropWhile isWsChar).reverse)

/-- JS `toLowerCase` on the ASCII/Latin-1 range (`A`-`Z` and `À`-`Þ`
except `×` map to their lowercase forms 32 codepoints higher). -/
def toLowerChar (c : Char) : Char :=
  if 'A' ≤ c && c ≤ 'Z' then Char.ofNat (c.toNat + 32)
  else if 0xC0 ≤ c.toNat && c.toNat ≤ 0xDE && c.toNat ≠ 0xD7 then Char.ofNat (c.toNat + 32)
  else c

/-- JS `String.prototype.toLowerCase`. -/
def jsToLower (s : String) : String :=
  String.mk (s.toList.map toLowerChar)

/-- Substring test on character lists (JS `String.prototype.includes`). -/
def listContainsSub (needle : List Char) : List Char → Bool
  | [] => needle.isEmpty
  | c :: t => needle.isPrefixOf (c :: t) || listContainsSub needle t

/-- JS `hay.includes(needle)`. -/
def containsSub (hay needle : String) : Bool :=
  listContainsSub needle.toList hay.toList

/-- Accumulator loop behind `splitChunks` (`acc` holds the current chunk in
reverse). -/
def splitChunksAux (sep : Char → Bool) : List Char → List Char → List (List Char)
  | acc, [] => if acc.isEmpty then [] else [acc.reverse]
  | acc, c :: t =>
    if sep c then
      if acc.isEmpty then splitChunksAux sep [] t
      else acc.reverse :: splitChunksAux sep [] t
    else splitChunksAux sep (c :: acc) t

/-- Maximal chunks of characters not satisfying `sep`.  Models a JS
`split`-on-separator-run followed by `.filter(Boolean)` (the source always
filters out the empty pieces right after splitting). -/
def splitChunks (sep : Char → Bool) (l : List Char) : List (List Char) :=
  splitChunksAux sep [] l

/-- JS `s.split(/\s+/).filter(Boolean)`. -/
def wsSplit (s : String) : List String :=
  (splitChunks isWsChar s.toList).map String.mk

/-- Digit-run to `Nat` (the JS `Number(...)` of a nonempty all-digit string;
`none` models `NaN` for anything else). -/
def parseNatDigits (cs : List Char) : Option ℕ :=
  if cs ≠ [] && cs.all Char.isDigit then
    some (cs.foldl (fun n c => 10 * n + (c.toNat - '0'.toNat)) 0)
  else none

/-- JS `String(value).padStart(2, '0')` for a natural number. -/
def pad2 (n : ℕ) : String :=
  let s := toString n
  if s.length < 2 then "0" ++ s else s

/-! ### Positioned tokens and reconstructed lines (§3 of the spec) -/

/-- One positioned text fragment as pushed into `items` by `parsePDF`
(fields `str`, `x`, `y`, `width`, `height`, `page`). -/
structure PdfItem where
  str : String
  x : ℚ
  y : ℚ
  width : ℚ
  height : ℚ
  page : ℤ
deriving DecidableEq, Inhabited

/-- A token of a reconstructed line (`{ str, x, width, height }` as built by
`groupLines`). -/
structure LineToken where
  str : String
  x : ℚ
  width : ℚ
  height : ℚ
deriving DecidableEq, Inhabited

/-- A reconstructed visual line (`{ y, page, tokens }`). -/
structure Line where
  y : ℚ
  page : ℤ
  tokens : List LineToken
deriving DecidableEq, Inhabited

/-- Projection used by `groupLines` when it rebuilds each token. -/
def toLineToken (t : PdfItem) : LineToken :=
  ⟨t.str, t.x, t.width, t.height⟩

/-- The comparator `(a, b) => a.x - b.x` used to sort a bucket. -/
def itemLE (a b : PdfItem) : Prop := a.x ≤ b.x

instance : DecidableRel itemLE := fun a b => inferInstanceAs (Decidable (a.x ≤ b.x))

instance : IsTotal PdfItem itemLE := ⟨fun a b => le_total a.x b.x⟩

instance : IsTrans PdfItem itemLE := ⟨fun _ _ _ h₁ h₂ => le_trans h₁ h₂⟩

/-- The corresponding order on rebuilt line tokens (for stating sortedness). -/
def ltokLE (a b : LineToken) : Prop := a.x ≤ b.x

/-- The comparator `(a, b) => a.page - b.page || b.y - a.y` used for the
final ordering of lines (page ascending, then y descending). -/
def lineOrder (a b : Line) : Prop :=
  a.page < b.page ∨ (a.page = b.page ∧ b.y ≤ a.y)

instance : DecidableRel lineOrder := fun a b =>
  inferInstanceAs (Decidable (a.page < b.page ∨ (a.page = b.page ∧ b.y ≤ a.y)))

instance : IsTotal Line lineOrder := by
  refine ⟨fun a b => ?_⟩
  rcases lt_trichotomy a.page b.page with h | h | h
  · exact Or.inl (Or.inl h)
  · rcases le_total b.y a.y with hy | hy
    · exact Or.inl (Or.inr ⟨h, hy⟩)
    · exact Or.inr (Or.inr ⟨h.symm, hy⟩)
  · exact Or.inr (Or.inl h)

instance : IsTrans Line lineOrder := by
  refine ⟨fun a b c hab hbc => ?_⟩
  rcases hab with h₁ | ⟨h₁, hy₁⟩
  · rcases hbc with h₂ | ⟨h₂, _⟩
    · exact Or.inl (h₁.trans h₂)
    · exact Or.inl (h₂ ▸ h₁)
  · rcases hbc with h₂ | ⟨h₂, hy₂⟩
    · exact Or.inl (h₁ ▸ h₂)
    · exact Or.inr ⟨h₁.trans h₂, hy₂.trans hy₁⟩

/-! ### `groupLines` (line reconstructor, §4.1)

The source keeps two parallel arrays `yBuckets` / `rows`, scans the existing
buckets first-fit and pushes a new bucket at the end when no bucket is within
tolerance.  The parallel arrays are modelled as one list of
(bucket-y, row) pairs. -/

/-- One `items.forEach` step of `groupLines`: first-fit insertion of `it`
into the bucket list (new bucket appended at the end). -/
def addToBuckets (tolerance : ℚ) (buckets : List (ℚ × List PdfItem)) (it : PdfItem) :
    List (ℚ × List PdfItem) :=
  match buckets with
  | [] => [(it.y, [it])]
  | (by0, row) :: rest =>
    if |by0 - it.y| ≤ tolerance then (by0, row ++ [it]) :: rest
    else (by0, row) :: addToBuckets tolerance rest it

/-- `rows.map((row) => {...})` body: sort the bucket by `x`, average the
`y`s, take the first token's page. -/
def mkLineObject (row : List PdfItem) : Line :=
  let sorted := List.insertionSort itemLE row
  { y := (sorted.map (·.y)).sum / (sorted.length : ℚ),
    page := match sorted with | [] => 0 | t :: _ => t.page,
    tokens := sorted.map toLineToken }

/-- `groupLines(items, tolerance = 2.5)` from the table-reconstructor
variant. -/
def groupLines (items : List PdfItem) (tolerance : ℚ := 5/2) : List Line :=
  let rows := (items.foldl (addToBuckets tolerance) []).map Prod.snd
  let lineObjects := rows.map mkLineObject
  List.insertionSort lineOrder lineObjects

/-! #### Lemmas about `groupLines` -/

/-- One first-fit insertion adds the item to exactly one row (multiset view). -/
theorem addToBuckets_flatten (tol : ℚ) (it : PdfItem) (buckets : List (ℚ × List PdfItem)) :
    (((addToBuckets tol buckets it).map Prod.snd).flatten).Perm
      (it :: (buckets.map Prod.snd).flatten) := by
  induction buckets with
  | nil => simp [addToBuckets]
  | cons head rest ih =>
    obtain ⟨by0, row⟩ := head
    by_cases h : |by0 - it.y| ≤ tol
    · simp only [addToBuckets, if_pos h, List.map_cons, List.flatten_cons, List.append_assoc,
        List.singleton_append]
      exact List.perm_middle
    · simp only [addToBuckets, if_neg h, List.map_cons, List.flatten_cons]
      exact (List.Perm.append_left row ih).trans List.perm_middle

/-- The bucket rows of `groupLines` form a partition of the input items. -/
theorem foldl_buckets_flatten (tol : ℚ) (items : List PdfItem) :
    ∀ buckets, (((items.foldl (addToBuckets tol) buckets).map Prod.snd).flatten).Perm
      ((buckets.map Prod.snd).flatten ++ items) := by
  induction items with
  | nil => intro buckets; simp
  | cons it rest ih =>
    intro buckets
    simp only [List.foldl_cons]
    refine (ih (addToBuckets tol buckets it)).trans ?_
    refine ((addToBuckets_flatten tol it buckets).append_right rest).trans ?_
    simp only [List.cons_append]
    exact List.perm_middle.symm

/-- Congruence of `flatten ∘ map` under pointwise permutation. -/
theorem flatten_map_perm {α β : Type*} (f g : α → List β) (h : ∀ a, (f a).Perm (g a))
    (l : List α) : ((l.map f).flatten).Perm ((l.map g).flatten) := by
  induction l with
  | nil => simp
  | cons a t ih =>
    simp only [List.map_cons, List.flatten_cons]
    exact (h a).append ih

/-- Every input token reappears in exactly one reconstructed line. -/
theorem groupLines_tokens_perm (items : List PdfItem) (tol : ℚ) :
    ((groupLines items tol).flatMap Line.tokens).Perm (items.map toLineToken) := by
  unfold groupLines
  refine (List.Perm.flatMap_right Line.tokens
    (List.perm_insertionSort lineOrder _)).trans ?_
  rw [List.flatMap_def]
  have h1 : ∀ row : List PdfItem,
      ((Line.tokens ∘ mkLineObject) row).Perm ((fun r => r.map toLineToken) row) := by
    intro row
    exact List.Perm.map toLineToken (List.perm_insertionSort itemLE row)
  rw [List.map_map]
  refine (flatten_map_perm _ _ h1 _).trans ?_
  rw [← List.map_flatten]
  refine List.Perm.map toLineToken ?_
  simpa using foldl_buckets_flatten tol items []

/-- Each reconstructed line's tokens are sorted by ascending `x`. -/
theorem groupLines_tokens_sorted (items : List PdfItem) (tol : ℚ) (l : Line)
    (h : l ∈ groupLines items tol) : List.Sorted ltokLE l.tokens := by
  unfold groupLines at h
  rw [(List.perm_insertionSort lineOrder _).mem_iff] at h
  rw [List.mem_map] at h
  obtain ⟨row, _, rfl⟩ := h
  refine List.Pairwise.map toLineToken (fun a b hab => hab) ?_
  exact List.sorted_insertionSort itemLE row

/-! #### Claim C1 -/

/-- First-fit order sensitivity witness: three tokens whose `y` values are
`100`, `102.5`, `105` (tolerance `2.5`). -/
def c1ItemsA : List PdfItem :=
  [⟨"a", 10, 100, 0, 0, 1⟩, ⟨"b", 50, 205/2, 0, 0, 1⟩, ⟨"c", 10, 105, 0, 0, 1⟩]

/-- The same three tokens with the middle one presented first. -/
def c1ItemsB : List PdfItem :=
  [⟨"b", 50, 205/2, 0, 0, 1⟩, ⟨"a", 10, 100, 0, 0, 1⟩, ⟨"c", 10, 105, 0, 0, 1⟩]

/-- C1, counterexample: `c1ItemsB` is a permutation of `c1ItemsA`, yet
`groupLines` (tolerance 2.5) splits the first list into two lines and merges
the second into a single line — the partition into line groupings does
depend on insertion order, because the greedy first-fit clusterer compares
against the first `y` pushed into each bucket. -/
theorem c1_counterexample :
    c1ItemsA.Perm c1ItemsB ∧ (groupLines c1ItemsA (5/2)).length = 2 ∧
      (groupLines c1ItemsB (5/2)).length = 1 := by
  refine ⟨by with_unfolding_all decide, by with_unfolding_all decide,
    by with_unfolding_all decide⟩

/-- C1 (amended): the partition produced by `groupLines` can change under a
permutation of the input (see the counterexample); what does hold is that
every input token lands in exactly one line grouping, and that inside every
line the token order is by ascending `x` only (insertion order never leaks
into a bucket's final order beyond stable tie-breaking). -/
theorem c1_line_clusterer (items : List PdfItem) :
    (∀ l ∈ groupLines items (5/2), List.Sorted ltokLE l.tokens) ∧
      ((groupLines items (5/2)).flatMap Line.tokens).Perm (items.map toLineToken) :=
  ⟨fun l hl => groupLines_tokens_sorted items (5/2) l hl,
    groupLines_tokens_perm items (5/2)⟩

/-- Witness for C1 at a concrete input: the first line of
`groupLines c1ItemsA` is `x`-sorted, and the clustering preserves the
tokens. -/
theorem c1_line_clusterer_witness :
    List.Sorted ltokLE ((groupLines c1ItemsA (5/2)).headD default).tokens ∧
      ((groupLines c1ItemsA (5/2)).flatMap Line.tokens).Perm (c1ItemsA.map toLineToken) :=
  ⟨(c1_line_clusterer c1ItemsA).1 _ (by with_unfolding_all decide),
    (c1_line_clusterer c1ItemsA).2⟩

/-! ### `buildTableColumnLabels` (§4.4) -/

/-- `DEFAULT_SET_COLUMNS = 4`. -/
def DEFAULT_SET_COLUMNS : ℤ := 4

/-- `MAX_SET_COLUMNS = 5`. -/
def MAX_SET_COLUMNS : ℤ := 5

/-- The fixed labels listed after the set columns in
`buildTableColumnLabels` (verbatim from the source array literal). -/
def postSetLabels : List String :=
  ["Vote",
   "Points Tot", "Brake Points", "Points Won - Lost",
   "Serves Tot", "Serves Err", "Serves Pts",
   "Receptions Tot", "Receptions Err", "Receptions Pos%", "Receptions Exc%",
   "Attacks Tot", "Attacks Err", "Attacks Blocked", "Attacks Pts", "Attacks Pts%", "BK Pts"]

/-- `buildTableColumnLabels(setCount = DEFAULT_SET_COLUMNS)`.  The JS
`setCount || DEFAULT_SET_COLUMNS` maps the falsy count `0` to the default. -/
def buildTableColumnLabels (setCount : ℤ := DEFAULT_SET_COLUMNS) : List String :=
  let clampedSets :=
    min (max 1 (if setCount = 0 then DEFAULT_SET_COLUMNS else setCount)) MAX_SET_COLUMNS
  let setColumns := (List.range clampedSets.toNat).map (fun i => toString (i + 1))
  setColumns ++ postSetLabels

/-! #### Claim C2 -/

/-- C2, counterexample: for the default request of 4 set columns the label
list has `4 + 17 = 21` entries, not `clamp(4,1,5) + 16 = 20` — the fixed
post-set block (`Vote` through `BK Pts`) has seventeen labels, not
sixteen. -/
theorem c2_counterexample : (buildTableColumnLabels 4).length ≠ 4 + 16 := by
  decide

/-- C2 (amended): for every requested set count `n`, the label list is
exactly `clamp(n, 1, 5)` set-column labels `"1" … "⟨clamp⟩"` (`n = 0`,
i.e. a falsy/absent count, defaulting to 4) followed by the seventeen fixed
post-set statistical labels `Vote, Points Tot, Brake Points,
Points Won - Lost, Serves Tot, Serves Err, Serves Pts, Receptions Tot,
Receptions Err, Receptions Pos%, Receptions Exc%, Attacks Tot, Attacks Err,
Attacks Blocked, Attacks Pts, Attacks Pts%, BK Pts` in that order, so its
length is `clamp(n, 1, 5) + 17`. -/
theorem c2_buildTableColumnLabels (n : ℤ) :
    (buildTableColumnLabels n).length =
        (min (max 1 (if n = 0 then 4 else n)) 5).toNat + 17 ∧
      (buildTableColumnLabels n).drop (min (max 1 (if n = 0 then 4 else n)) 5).toNat =
        postSetLabels ∧
      (buildTableColumnLabels n).take (min (max 1 (if n = 0 then 4 else n)) 5).toNat =
        (List.range (min (max 1 (if n = 0 then 4 else n)) 5).toNat).map
          (fun i => toString (i + 1)) ∧
      1 ≤ min (max 1 (if n = 0 then 4 else n)) 5 ∧
      min (max 1 (if n = 0 then 4 else n)) 5 ≤ 5 ∧
      postSetLabels.length = 17 := by
  have key : buildTableColumnLabels n =
      (List.range (min (max 1 (if n = 0 then 4 else n)) 5).toNat).map
        (fun i => toString (i + 1)) ++ postSetLabels := rfl
  have hlen : ((List.range (min (max 1 (if n = 0 then 4 else n)) 5).toNat).map
      (fun i => toString (i + 1))).length =
      (min (max 1 (if n = 0 then 4 else n)) 5).toNat := by
    rw [List.length_map, List.length_range]
  refine ⟨?_, ?_, ?_, ?_, ?_, by decide⟩
  · rw [key, List.length_append, hlen]
    rfl
  · rw [key, List.drop_left' hlen]
  · rw [key, List.take_left' hlen]
  · exact le_min (le_max_left 1 _) (by decide)
  · exact min_le_right _ 5

/-! ### `groupPlayersByTeam` (payload grouping) -/

/-- The fields of a parsed player consulted by `groupPlayersByTeam` and the
payload builder; `team` is `none` when the field is absent. -/
structure GPlayer where
  number : ℤ
  name : String
  team : Option String
deriving DecidableEq, Inhabited

/-- `player.team || "Equipe"` — a missing (`none`) or empty team string is
falsy in JS and falls back to the literal `"Equipe"`. -/
def teamKey (p : GPlayer) : String :=
  match p.team with
  | none => "Equipe"
  | some s => if s = "" then "Equipe" else s

/-- One step of the `players.reduce` accumulator: push the player onto the
bucket for `k`, creating the bucket at the end on first sight (JS object
string keys enumerate in insertion order). -/
def insertTeamEntry : List (String × List GPlayer) → String → GPlayer →
    List (String × List GPlayer)
  | [], k, p => [(k, [p])]
  | (k', ps) :: rest, k, p =>
    if k' = k then (k', ps ++ [p]) :: rest
    else (k', ps) :: insertTeamEntry rest k p

/-- One output team grouping `{ team, players }`. -/
structure TeamGroup where
  team : String
  players : List GPlayer
deriving DecidableEq, Inhabited

/-- The comparator `(a, b) => a.number - b.number`. -/
def playerNumLE (a b : GPlayer) : Prop := a.number ≤ b.number

instance : DecidableRel playerNumLE := fun a b =>
  inferInstanceAs (Decidable (a.number ≤ b.number))

instance : IsTotal GPlayer playerNumLE := ⟨fun a b => le_total a.number b.number⟩

instance : IsTrans GPlayer playerNumLE := ⟨fun _ _ _ h₁ h₂ => le_trans h₁ h₂⟩

/-- `groupPlayersByTeam(players = [])`. -/
def groupPlayersByTeam (players : List GPlayer) : List TeamGroup :=
  if players.isEmpty then []
  else
    let teams := players.foldl (fun acc p => insertTeamEntry acc (teamKey p) p) []
    teams.map (fun e => ⟨e.1, List.insertionSort playerNumLE e.2⟩)

/-! #### Lemmas about `groupPlayersByTeam` -/

/-- Inserting a player adds it to exactly one bucket (multiset view). -/
theorem insertTeamEntry_flatten (k : String) (p : GPlayer)
    (acc : List (String × List GPlayer)) :
    (((insertTeamEntry acc k p).map Prod.snd).flatten).Perm
      (p :: (acc.map Prod.snd).flatten) := by
  induction acc with
  | nil => simp [insertTeamEntry]
  | cons head rest ih =>
    obtain ⟨k', ps⟩ := head
    by_cases h : k' = k
    · simp only [insertTeamEntry, if_pos h, List.map_cons, List.flatten_cons,
        List.append_assoc, List.singleton_append]
      exact List.perm_middle
    · simp only [insertTeamEntry, if_neg h, List.map_cons, List.flatten_cons]
      exact (List.Perm.append_left ps ih).trans List.perm_middle

/-- The reduce step preserves all players (multiset view). -/
theorem foldTeams_flatten (players : List GPlayer) :
    ∀ acc, (((players.foldl (fun acc p => insertTeamEntry acc (teamKey p) p) acc).map
      Prod.snd).flatten).Perm ((acc.map Prod.snd).flatten ++ players) := by
  induction players with
  | nil => intro acc; simp
  | cons p rest ih =>
    intro acc
    simp only [List.foldl_cons]
    refine (ih _).trans ?_
    refine ((insertTeamEntry_flatten (teamKey p) p acc).append_right rest).trans ?_
    simp only [List.cons_append]
    exact List.perm_middle.symm

/-- Every player stored in a bucket carries that bucket's key. -/
theorem insertTeamEntry_key (k : String) (q : GPlayer) (hq : teamKey q = k)
    (acc : List (String × List GPlayer))
    (hacc : ∀ e ∈ acc, ∀ p ∈ e.2, teamKey p = e.1) :
    ∀ e ∈ insertTeamEntry acc k q, ∀ p ∈ e.2, teamKey p = e.1 := by
  induction acc with
  | nil =>
    intro e he p hp
    simp only [insertTeamEntry, List.mem_singleton] at he
    subst he
    simp only [List.mem_singleton] at hp
    subst hp
    exact hq
  | cons head rest ih =>
    obtain ⟨k', ps⟩ := head
    intro e he p hp
    by_cases h : k' = k
    · simp only [insertTeamEntry, if_pos h, List.mem_cons] at he
      rcases he with rfl | he
      · simp only [List.mem_append, List.mem_singleton] at hp
        rcases hp with hp | rfl
        · exact hacc (k', ps) (List.mem_cons_self _ _) p hp
        · exact hq.trans h.symm
      · exact hacc e (List.mem_cons_of_mem _ he) p hp
    · simp only [insertTeamEntry, if_neg h, List.mem_cons] at he
      rcases he with rfl | he
      · exact hacc (k', ps) (List.mem_cons_self _ _) p hp
      · exact ih (fun e' he' => hacc e' (List.mem_cons_of_mem _ he')) e he p hp

/-- The reduce accumulator keys every bucket by its players' team key. -/
theorem foldTeams_key (players : List GPlayer) :
    ∀ acc, (∀ e ∈ acc, ∀ p ∈ e.2, teamKey p = e.1) →
      ∀ e ∈ players.foldl (fun acc p => insertTeamEntry acc (teamKey p) p) acc,
        ∀ p ∈ e.2, teamKey p = e.1 := by
  induction players with
  | nil => intro acc hacc; exact hacc
  | cons q rest ih =>
    intro acc hacc
    simp only [List.foldl_cons]
    exact ih _ (insertTeamEntry_key (teamKey q) q rfl acc hacc)

/-! #### Claim C10 -/

/-- C10: `groupPlayersByTeam` places every player in exactly one output
grouping (the concatenation of all groupings is a permutation of the
input), keys every grouping by its players' `team || "Equipe"` fallback (so
a player with a missing or empty team lands in the `"Equipe"` group instead
of being dropped), and sorts each grouping's players by ascending
`number`. -/
theorem c10_groupPlayersByTeam (players : List GPlayer) :
    ((groupPlayersByTeam players).flatMap TeamGroup.players).Perm players ∧
      (∀ g ∈ groupPlayersByTeam players, ∀ p ∈ g.players, teamKey p = g.team) ∧
      (∀ g ∈ groupPlayersByTeam players, List.Sorted playerNumLE g.players) ∧
      (∀ p : GPlayer, p.team = none ∨ p.team = some "" → teamKey p = "Equipe") := by
  refine ⟨?_, ?_, ?_, ?_⟩
  · by_cases hp : players.isEmpty
    · rw [List.isEmpty_iff] at hp
      subst hp
      simp [groupPlayersByTeam]
    · unfold groupPlayersByTeam
      rw [if_neg hp, List.flatMap_def, List.map_map]
      have h1 : ∀ e : String × List GPlayer,
          ((TeamGroup.players ∘ fun e : String × List GPlayer =>
            (⟨e.1, List.insertionSort playerNumLE e.2⟩ : TeamGroup)) e).Perm
            (Prod.snd e) := fun e => List.perm_insertionSort playerNumLE e.2
      refine (flatten_map_perm _ _ h1 _).trans ?_
      simpa using foldTeams_flatten players []
  · intro g hg p hp
    unfold groupPlayersByTeam at hg
    by_cases hemp : players.isEmpty
    · rw [if_pos hemp] at hg
      exact absurd hg (List.not_mem_nil g)
    · rw [if_neg hemp, List.mem_map] at hg
      obtain ⟨e, he, rfl⟩ := hg
      have hkey := foldTeams_key players [] (by intro e he; cases he) e he
      have hp' : p ∈ e.2 := (List.perm_insertionSort playerNumLE e.2).mem_iff.mp hp
      exact hkey p hp'
  · intro g hg
    unfold groupPlayersByTeam at hg
    by_cases hemp : players.isEmpty
    · rw [if_pos hemp] at hg
      exact absurd hg (List.not_mem_nil g)
    · rw [if_neg hemp, List.mem_map] at hg
      obtain ⟨e, _, rfl⟩ := hg
      exact List.sorted_insertionSort playerNumLE e.2
  · intro p hp
    rcases hp with h | h <;> simp [teamKey, h]

/-- Concrete grouping input for the C10 witness: two players with teams, one
with `team = none`. -/
def c10Players : List GPlayer :=
  [⟨7, "Ana", some "Alpha"⟩, ⟨3, "Bo", none⟩, ⟨2, "Cy", some "Alpha"⟩]

/-- Witness for C10 at a concrete input (the `none`-team player goes to
`"Equipe"`, groupings preserve the players, the `"Alpha"` group is sorted by
number). -/
theorem c10_groupPlayersByTeam_witness :
    ((groupPlayersByTeam c10Players).flatMap TeamGroup.players).Perm c10Players ∧
      List.Sorted playerNumLE ((groupPlayersByTeam c10Players).headD default).players ∧
      teamKey ⟨3, "Bo", none⟩ = "Equipe" :=
  ⟨(c10_groupPlayersByTeam c10Players).1,
    (c10_groupPlayersByTeam c10Players).2.2.1 _ (by decide),
    (c10_groupPlayersByTeam c10Players).2.2.2 _ (Or.inl rfl)⟩

/-! ### Line text and token classification (§4.3 helpers) -/

/-- Loop behind `collapseWs`. -/
def collapseWsAux : Bool → List Char → List Char
  | _, [] => []
  | true, c :: t =>
    if isWsChar c then collapseWsAux true t else c :: collapseWsAux false t
  | false, c :: t =>
    if isWsChar c then
      match t with
      | [] => [c]
      | d :: _ => if isWsChar d then ' ' :: collapseWsAux true t else c :: collapseWsAux false t
    else c :: collapseWsAux false t

/-- JS `.replace(/\s{2,}/g, " ")`: each maximal run of two or more
whitespace characters becomes a single space (a lone whitespace character is
left unchanged).  The `Bool` flag of the loop marks that the current
whitespace run has already been replaced. -/
def collapseWs (l : List Char) : List Char :=
  collapseWsAux false l

/-- JS `arr.join(sep)`. -/
def joinSep (sep : String) : List String → String
  | [] => ""
  | [s] => s
  | s :: rest => s ++ sep ++ joinSep sep rest

/-- `getLineText(line)`: trim every token, drop the empties, join with a
single space, collapse residual whitespace runs, trim. -/
def getLineText (line : Line) : String :=
  let joined := joinSep " " ((line.tokens.map (fun t => jsTrim t.str)).filter (fun s => s ≠ ""))
  jsTrim (String.mk (collapseWs joined.toList))

/-- Consume `pat` as a literal prefix. -/
def dropLit (pat : List Char) (cs : List Char) : Option (List Char) :=
  if pat.isPrefixOf cs then some (cs.drop pat.length) else none

/-- Consume `\s+` (at least one whitespace character, greedily). -/
def wsPlus (cs : List Char) : Option (List Char) :=
  match cs with
  | c :: t => if isWsChar c then some (t.dropWhile isWsChar) else none
  | [] => none

/-- `isSectionTerminator(text)` — the anchored case-insensitive test
`/^(Points\s+won|Head\s+Coach|Assistant|Set\s+\d+)/i`. -/
def isSectionTerminator (text : String) : Bool :=
  let cs := (jsToLower text).toList
  (match dropLit "points".toList cs with
    | some r1 =>
      match wsPlus r1 with
      | some r2 => "won".toList.isPrefixOf r2
      | none => false
    | none => false) ||
  (match dropLit "head".toList cs with
    | some r1 =>
      match wsPlus r1 with
      | some r2 => "coach".toList.isPrefixOf r2
      | none => false
    | none => false) ||
  "assistant".toList.isPrefixOf cs ||
  (match dropLit "set".toList cs with
    | some r1 =>
      match wsPlus r1 with
      | some r2 =>
        match r2 with
        | d :: _ => d.isDigit
        | [] => false
      | none => false
    | none => false)

/-- `STAT_TOKEN_REGEX = /^([+-]?\d+(?:[.,]\d+)?%?)$/` as a character-level
decision procedure (for this pattern the greedy/backtracking regex semantics
coincide with the deterministic reading, because a digit can follow neither
`[.,]\d+` nor `%`). -/
def statShaped (cs : List Char) : Bool :=
  let cs1 :=
    match cs with
    | c :: t => if c = '+' || c = '-' then t else cs
    | [] => cs
  match cs1 with
  | [] => false
  | c :: _ =>
    if !c.isDigit then false
    else
      let rest := cs1.dropWhile Char.isDigit
      let rest2 :=
        match rest with
        | d :: t =>
          if (d = '.' || d = ',') && (match t with | e :: _ => e.isDigit | [] => false)
          then t.dropWhile Char.isDigit else rest
        | [] => rest
      let rest3 :=
        match rest2 with
        | '%' :: t => t
        | _ => rest2
      rest3.isEmpty

/-- `isStatValue(value)`: `"."`, `"-"` or a stat-shaped numeric token after
trimming. -/
def isStatValue (value : String) : Bool :=
  let normalized := jsTrim value
  if normalized = "" then false
  else normalized = "." || normalized = "-" || statShaped normalized.toList

/-- ASCII letter (`[A-Za-z]`). -/
def isAsciiLetter (c : Char) : Bool :=
  ('A' ≤ c && c ≤ 'Z') || ('a' ≤ c && c ≤ 'z')

/-- `/^L+$/i` on a character list. -/
def isAllLetterL (cs : List Char) : Bool :=
  !cs.isEmpty && cs.all (fun c => c = 'L' || c = 'l')

/-- The characters kept by the name cleaner `/[^A-Za-zÀ-ÿ'\-\s]/g`
(ASCII letters, the Latin-1 block `À`-`ÿ` — which, as a literal regex
range, also contains `×` and `÷` — apostrophe, hyphen, whitespace). -/
def isNameChar (c : Char) : Bool :=
  isAsciiLetter c || (0xC0 ≤ c.toNat && c.toNat ≤ 0xFF) || c = '\'' || c = '-' || isWsChar c

/-! ### `splitTokenText` and `parsePlayerLine` (§4.3) -/

/-- `splitTokenText(token)`: split a token whose text embeds spaces into
sub-tokens with interpolated positions (width proportional to character
count).  On the tokens produced by `groupLines` the `token.str ?? token.text`
and `token.width ?? 0` fallbacks always take the first branch, so the fields
are modelled as always present. -/
def splitTokenText (token : LineToken) : List LineToken :=
  let original := token.str
  if !containsSub original " " then [token]
  else
    let parts := wsSplit original
    if parts.length ≤ 1 then [{ token with str := original }]
    else
      let widthPerChar :=
        token.width / (((if original.length = 0 then 1 else original.length) : ℕ) : ℚ)
      (parts.foldl
        (fun (acc : List LineToken × ℚ) part =>
          let estimatedWidth :=
            if widthPerChar * (part.length : ℚ) = 0 then token.width
            else widthPerChar * (part.length : ℚ)
          (acc.1 ++ [{ token with str := part, x := acc.2, width := estimatedWidth }],
            acc.2 + estimatedWidth + widthPerChar))
        ([], token.x)).1

/-- A normalised player-line token `{ text, x, width, height }`. -/
structure StatToken where
  text : String
  x : ℚ
  width : ℚ
  height : ℚ
deriving DecidableEq, Inhabited

/-- The token-normalisation prefix of `parsePlayerLine`: flatten via
`splitTokenText`, trim each text, keep the nonempty ones. -/
def playerTokens (line : Line) : List StatToken :=
  ((line.tokens.flatMap splitTokenText).map
    (fun t => ({ text := jsTrim t.str, x := t.x, width := t.width, height := t.height } :
      StatToken))).filter (fun t => t.text ≠ "")

/-- One iteration of the number-scan: strip whitespace, split into the digit
part and the ASCII-letter part (`raw.replace(/[0-9]/g,"").replace(/[^A-Za-z]/g,"")`
keeps exactly the ASCII letters), and accept a 1–3-digit number whose letter
remainder is empty or an all-`L` libero marker. -/
def numberCandidate (t : StatToken) : Option String :=
  let raw := t.text.toList.filter (fun c => !isWsChar c)
  let digits := raw.filter Char.isDigit
  let remainder := raw.filter isAsciiLetter
  if digits.isEmpty || digits.length > 3 then none
  else if !remainder.isEmpty && !isAllLetterL remainder then none
  else some (String.mk digits)

/-- The `for (let i = 0; i < Math.min(3, tokens.length); i += 1)` scan. -/
def findNumberIndexAux : List StatToken → ℕ → Option (ℕ × String)
  | [], _ => none
  | t :: rest, i =>
    if i ≥ 3 then none
    else
      match numberCandidate t with
      | some digits => some (i, digits)
      | none => findNumberIndexAux rest (i + 1)

/-- First token among the first three that passes the number test. -/
def findNumberIndex (tokens : List StatToken) : Option (ℕ × String) :=
  findNumberIndexAux tokens 0

/-- The `remainingTokens.forEach` classification loop of `parsePlayerLine`:
name parts before the first stat-shaped token (skipping tokens with no
name-like characters), stat tokens from the first stat-shaped token on. -/
def classifyTokens : List StatToken → Bool → List String × List StatToken
  | [], _ => ([], [])
  | t :: rest, collectingStats =>
    if !collectingStats && !isStatValue t.text then
      if (t.text.toList.filter isNameChar).isEmpty then classifyTokens rest collectingStats
      else
        let r := classifyTokens rest collectingStats
        (t.text :: r.1, r.2)
    else
      let r := classifyTokens rest true
      (r.1, t :: r.2)

/-- The record returned by `parsePlayerLine`. -/
structure PlayerRec where
  number : ℕ
  name : String
  rawStats : List String
  lineText : String
  statTokens : List StatToken
deriving DecidableEq, Inhabited

/-- `parsePlayerLine(line)`. -/
def parsePlayerLine (line : Line) : Option PlayerRec :=
  let tokens := playerTokens line
  if tokens.isEmpty then none
  else
    match findNumberIndex tokens with
    | none => none
    | some (numberIndex, numberText) =>
      let number := (parseNatDigits numberText.toList).getD 0
      let remainingTokens := (tokens.drop (numberIndex + 1)).dropWhile
        (fun t => isAllLetterL (t.text.toList.filter isAsciiLetter))
      let r := classifyTokens remainingTokens false
      let name := jsTrim (joinSep " " r.1)
      if name = "" then none
      else
        some { number := number, name := name, rawStats := r.2.map (fun t => t.text),
               lineText := getLineText line, statTokens := r.2 }

/-! #### Lemmas about `classifyTokens` -/

/-- Once `collectingStats` is set, every remaining token is a stat token. -/
theorem classifyTokens_true (toks : List StatToken) : classifyTokens toks true = ([], toks) := by
  induction toks with
  | nil => rfl
  | cons t rest ih => simp [classifyTokens, ih]

/-- Closed form of the classification loop: the names are the
name-charactered tokens strictly before the first stat-shaped token, the
stat suffix starts exactly at the first stat-shaped token. -/
theorem classifyTokens_false_eq (toks : List StatToken) :
    classifyTokens toks false =
      (((toks.takeWhile (fun t => !isStatValue t.text)).filter
          (fun t => !(t.text.toList.filter isNameChar).isEmpty)).map (fun t => t.text),
        toks.dropWhile (fun t => !isStatValue t.text)) := by
  induction toks with
  | nil => rfl
  | cons t rest ih =>
    cases h : isStatValue t.text with
    | true =>
      simp only [classifyTokens, h, Bool.not_true, Bool.not_false, Bool.and_false,
        Bool.false_eq_true, if_false, classifyTokens_true, List.takeWhile_cons,
        List.dropWhile_cons, List.filter_nil, List.map_nil]
    | false =>
      cases hn : (t.text.toList.filter isNameChar).isEmpty with
      | true =>
        simp only [classifyTokens, h, hn, Bool.not_false, Bool.true_and, if_true, ih,
          List.takeWhile_cons, List.dropWhile_cons, Bool.not_true, Bool.false_eq_true,
          if_false, List.filter_cons]
      | false =>
        simp only [classifyTokens, h, hn, Bool.not_false, Bool.true_and, if_true,
          Bool.not_true, Bool.false_eq_true, if_false, ih, List.takeWhile_cons,
          List.dropWhile_cons, List.filter_cons, List.map_cons]

/-! #### Claim C7 -/

/-- The literal line `["7", "Ana", "12", "Silva"]` from the spec's test. -/
def c7Line : Line :=
  ⟨0, 1, [⟨"7", 0, 0, 0⟩, ⟨"Ana", 10, 0, 0⟩, ⟨"12", 20, 0, 0⟩, ⟨"Silva", 30, 0, 0⟩]⟩

/-- C7: the name/stat partition of `parsePlayerLine` is one-directional —
the stat suffix is exactly the token suffix starting at the first
stat-shaped token (`dropWhile`), and the name parts are drawn only from the
tokens strictly before it (`takeWhile`), so no later token is ever added
back to the name; in particular tokens `["7", "Ana", "12", "Silva"]` parse
to name `"Ana"` and stats `["12", "Silva"]`. -/
theorem c7_one_directional :
    (∀ toks : List StatToken,
        (classifyTokens toks false).2 = toks.dropWhile (fun t => !isStatValue t.text) ∧
          (classifyTokens toks false).1 =
            ((toks.takeWhile (fun t => !isStatValue t.text)).filter
              (fun t => !(t.text.toList.filter isNameChar).isEmpty)).map (fun t => t.text)) ∧
      parsePlayerLine c7Line =
        some ⟨7, "Ana", ["12", "Silva"], "7 Ana 12 Silva",
          [⟨"12", 20, 0, 0⟩, ⟨"Silva", 30, 0, 0⟩]⟩ := by
  refine ⟨fun toks => ?_, by decide⟩
  rw [classifyTokens_false_eq]
  exact ⟨rfl, rfl⟩

/-! #### Lemmas for Claim C6 -/

/-- A token text with no whitespace and at least one character. -/
def simpleStr (s : String) : Prop :=
  s ≠ "" ∧ ∀ c ∈ s.toList, isWsChar c = false

instance (s : String) : Decidable (simpleStr s) :=
  inferInstanceAs (Decidable (_ ∧ _))

/-- Trimming a whitespace-free string is the identity. -/
theorem jsTrim_eq_self (s : String) (h : ∀ c ∈ s.toList, isWsChar c = false) :
    jsTrim s = s := by
  unfold jsTrim
  have h1 : s.toList.dropWhile isWsChar = s.toList := by
    cases hs : s.toList with
    | nil => simp
    | cons c t =>
      rw [List.dropWhile_cons, h c (by rw [hs]; exact List.mem_cons_self ..)]
      simp
  rw [h1]
  have h2 : s.toList.reverse.dropWhile isWsChar = s.toList.reverse := by
    cases hs : s.toList.reverse with
    | nil => simp
    | cons c t =>
      have hc : c ∈ s.toList := by
        rw [← List.mem_reverse, hs]
        exact List.mem_cons_self ..
      rw [List.dropWhile_cons, h c hc]
      simp
  rw [h2, List.reverse_reverse]
  rfl

/-- A whitespace-free string contains no space. -/
theorem listContains_space_false (cs : List Char) (h : ∀ c ∈ cs, isWsChar c = false) :
    listContainsSub [' '] cs = false := by
  induction cs with
  | nil => rfl
  | cons c t ih =>
    have hc : c ≠ ' ' := by
      intro hceq
      subst hceq
      simp [isWsChar] at h
    unfold listContainsSub
    have hpre : [' '].isPrefixOf (c :: t) = false := by
      simp [List.isPrefixOf, Ne.symm hc]
    rw [hpre]
    simpa using ih (fun a ha => h a (List.mem_cons_of_mem _ ha))

/-- `splitTokenText` is the identity on whitespace-free token texts. -/
theorem splitTokenText_simple (t : LineToken)
    (h : ∀ c ∈ t.str.toList, isWsChar c = false) : splitTokenText t = [t] := by
  have hcs : containsSub t.str " " = false := by
    unfold containsSub
    have hsp : (" ").toList = [' '] := rfl
    rw [hsp]
    exact listContains_space_false _ h
  simp [splitTokenText, hcs]

/-- On simple tokens the normalisation prefix of `parsePlayerLine` keeps
every token verbatim. -/
theorem playerTokens_simple (y : ℚ) (page : ℤ) (toks : List LineToken)
    (h : ∀ t ∈ toks, t.str ≠ "" ∧ ∀ c ∈ t.str.toList, isWsChar c = false) :
    playerTokens ⟨y, page, toks⟩ =
      toks.map (fun t => (⟨t.str, t.x, t.width, t.height⟩ : StatToken)) := by
  induction toks with
  | nil => rfl
  | cons t rest ih =>
    have ht := h t (List.mem_cons_self ..)
    have hrest := fun a ha => h a (List.mem_cons_of_mem _ ha)
    unfold playerTokens
    show ((((t :: rest).flatMap splitTokenText).map _).filter _) = _
    rw [List.flatMap_cons, splitTokenText_simple t ht.2]
    simp only [List.singleton_append, List.map_cons, List.filter_cons]
    rw [jsTrim_eq_self t.str ht.2]
    have hne : (decide (t.str ≠ "")) = true := by
      simpa using ht.1
    simp only [hne, if_pos]
    congr 1
    exact ih hrest

/-- `takeWhile`/`dropWhile` split of an append at the boundary. -/
theorem takeWhile_dropWhile_append (p : α → Bool) (l₁ l₂ : List α)
    (h₁ : ∀ a ∈ l₁, p a = true)
    (h₂ : ∀ b, l₂.head? = some b → p b = false) :
    (l₁ ++ l₂).takeWhile p = l₁ ∧ (l₁ ++ l₂).dropWhile p = l₂ := by
  induction l₁ with
  | nil =>
    simp only [List.nil_append]
    cases l₂ with
    | nil => exact ⟨rfl, rfl⟩
    | cons b t =>
      have hb := h₂ b rfl
      rw [List.takeWhile_cons, List.dropWhile_cons, hb]
      exact ⟨rfl, rfl⟩
  | cons a t ih =>
    have ha := h₁ a (List.mem_cons_self ..)
    have iht := ih (fun x hx => h₁ x (List.mem_cons_of_mem _ hx))
    simp only [List.cons_append, List.takeWhile_cons, List.dropWhile_cons, ha, if_true,
      eq_self_iff_true]
    exact ⟨by rw [iht.1], by rw [iht.2]⟩

/-- Characters of the first joined string occur in the join. -/
theorem joinSep_head_mem (sep : String) (s : String) (rest : List String) (c : Char)
    (hc : c ∈ s.toList) : c ∈ (joinSep sep (s :: rest)).toList := by
  cases rest with
  | nil => simpa [joinSep] using hc
  | cons b t =>
    show c ∈ (s ++ sep ++ joinSep sep (b :: t)).toList
    have : (s ++ sep ++ joinSep sep (b :: t)).toList =
        s.toList ++ sep.toList ++ (joinSep sep (b :: t)).toList := by
      simp [String.toList]
    rw [this]
    exact List.mem_append_left _ (List.mem_append_left _ hc)

/-- A string containing a non-whitespace character does not trim to the
empty string. -/
theorem jsTrim_ne_empty (s : String) (c : Char) (hc : c ∈ s.toList)
    (hnws : isWsChar c = false) : jsTrim s ≠ "" := by
  intro he
  unfold jsTrim at he
  have hl : (((s.toList.dropWhile isWsChar).reverse.dropWhile isWsChar).reverse) = [] := by
    have := congrArg String.toList he
    simpa using this
  rw [List.reverse_eq_nil_iff, List.dropWhile_eq_nil_iff] at hl
  have hsplit := List.takeWhile_append_dropWhile (p := isWsChar) (l := s.toList)
  rw [← hsplit] at hc
  rcases List.mem_append.mp hc with hmem | hmem
  · have := List.mem_takeWhile_imp hmem
    rw [hnws] at this
    exact Bool.noConfusion this
  · have := hl c (List.mem_reverse.mpr hmem)
    rw [hnws] at this
    exact Bool.noConfusion this

/-- The first-three-tokens scan fails when every scanned token fails. -/
theorem findNumberIndexAux_none (toks : List StatToken) :
    ∀ i, (∀ t ∈ toks.take (3 - i), numberCandidate t = none) →
      findNumberIndexAux toks i = none := by
  induction toks with
  | nil => intro i _; rfl
  | cons t rest ih =>
    intro i h
    unfold findNumberIndexAux
    by_cases hi : i ≥ 3
    · simp [hi]
    · have h3 : 3 - i = (3 - (i + 1)) + 1 := by omega
      have ht : numberCandidate t = none := by
        apply h
        rw [h3, List.take_succ_cons]
        exact List.mem_cons_self ..
      have hrest : ∀ x ∈ rest.take (3 - (i + 1)), numberCandidate x = none := by
        intro x hx
        apply h
        rw [h3, List.take_succ_cons]
        exact List.mem_cons_of_mem _ hx
      simp [hi, ht, ih (i + 1) hrest]

/-- Unfolded form of `parsePlayerLine` once the token list is nonempty and
the number scan has succeeded. -/
theorem parsePlayerLine_eq_of_find (line : Line) (numberIndex : ℕ) (numberText : String)
    (h0 : (playerTokens line).isEmpty = false)
    (hfind : findNumberIndex (playerTokens line) = some (numberIndex, numberText)) :
    parsePlayerLine line =
      (if jsTrim (joinSep " "
          (classifyTokens (((playerTokens line).drop (numberIndex + 1)).dropWhile
            (fun t => isAllLetterL (t.text.toList.filter isAsciiLetter))) false).1) = ""
       then none
       else some
        { number := (parseNatDigits numberText.toList).getD 0,
          name := jsTrim (joinSep " "
            (classifyTokens (((playerTokens line).drop (numberIndex + 1)).dropWhile
              (fun t => isAllLetterL (t.text.toList.filter isAsciiLetter))) false).1),
          rawStats := (classifyTokens (((playerTokens line).drop (numberIndex + 1)).dropWhile
            (fun t => isAllLetterL (t.text.toList.filter isAsciiLetter))) false).2.map
            (fun t => t.text),
          lineText := getLineText line,
          statTokens := (classifyTokens (((playerTokens line).drop (numberIndex + 1)).dropWhile
            (fun t => isAllLetterL (t.text.toList.filter isAsciiLetter))) false).2 }) := by
  unfold parsePlayerLine
  simp only [h0, hfind, Bool.false_eq_true, if_false]

/-! #### Claim C6 -/

/-- C6 (amended): a line starting `"12"`, `"L"`, then whitespace-free
name tokens (non-stat-shaped, with name characters, the first not an
all-`L` marker), then stat-shaped tokens parses to `number = 12` with the
libero `"L"` excluded from the name.  A 1–3-token number candidate is
*never* a 4-digit token, and a line fails to parse whenever all of its first
three normalised tokens fail the number test — but a 4-digit *first* token
alone does not make the line fail, because the scan continues through the
first three tokens (see the counterexample). -/
theorem c6_number_and_libero :
    (∀ (x1 x2 y : ℚ) (page : ℤ) (nameToks statToks : List (String × ℚ)),
      (∀ p ∈ nameToks, simpleStr p.1 ∧ isStatValue p.1 = false ∧
        (p.1.toList.filter isNameChar).isEmpty = false) →
      (∀ b, nameToks.head? = some b →
        isAllLetterL (b.1.toList.filter isAsciiLetter) = false) →
      nameToks ≠ [] →
      (∀ p ∈ statToks, simpleStr p.1 ∧ isStatValue p.1 = true) →
      parsePlayerLine ⟨y, page,
          ([("12", x1), ("L", x2)] ++ nameToks ++ statToks).map
            (fun p => (⟨p.1, p.2, 0, 0⟩ : LineToken))⟩ =
        some { number := 12,
               name := jsTrim (joinSep " " (nameToks.map Prod.fst)),
               rawStats := statToks.map Prod.fst,
               lineText := getLineText ⟨y, page,
                 ([("12", x1), ("L", x2)] ++ nameToks ++ statToks).map
                   (fun p => (⟨p.1, p.2, 0, 0⟩ : LineToken))⟩,
               statTokens := statToks.map (fun p => ⟨p.1, p.2, 0, 0⟩) }) ∧
    (∀ line : Line, (∀ t ∈ (playerTokens line).take 3, numberCandidate t = none) →
      parsePlayerLine line = none) ∧
    (∀ (s : String) (xx w hh : ℚ),
      ((s.toList.filter (fun c => !isWsChar c)).filter Char.isDigit).length = 4 →
      numberCandidate ⟨s, xx, w, hh⟩ = none) := by
  refine ⟨?_, ?_, ?_⟩
  · intro x1 x2 y page nameToks statToks hname hhead hne hstat
    obtain ⟨n0, ntail, rfl⟩ : ∃ n0 ntail, nameToks = n0 :: ntail := by
      cases nameToks with
      | nil => exact absurd rfl hne
      | cons a t => exact ⟨a, t, rfl⟩
    have hsimple : ∀ t ∈ ([("12", x1), ("L", x2)] ++ (n0 :: ntail) ++ statToks).map
        (fun p => (⟨p.1, p.2, 0, 0⟩ : LineToken)), t.str ≠ "" ∧
        ∀ c ∈ t.str.toList, isWsChar c = false := by
      intro t ht
      rw [List.mem_map] at ht
      obtain ⟨p, hp, rfl⟩ := ht
      have hp' : p = ("12", x1) ∨ p = ("L", x2) ∨ p ∈ (n0 :: ntail) ∨ p ∈ statToks := by
        rcases List.mem_append.mp hp with h1 | h1
        · rcases List.mem_append.mp h1 with h2 | h2
          · rcases List.mem_cons.mp h2 with h3 | h3
            · exact Or.inl h3
            · rcases List.mem_cons.mp h3 with h4 | h4
              · exact Or.inr (Or.inl h4)
              · cases h4
          · exact Or.inr (Or.inr (Or.inl h2))
        · exact Or.inr (Or.inr (Or.inr h1))
      rcases hp' with rfl | rfl | hp' | hp'
      · refine ⟨?_, ?_⟩
        · show ("12" : String) ≠ ""
          decide
        · show ∀ c ∈ ("12" : String).toList, isWsChar c = false
          decide
      · refine ⟨?_, ?_⟩
        · show ("L" : String) ≠ ""
          decide
        · show ∀ c ∈ ("L" : String).toList, isWsChar c = false
          decide
      · exact (hname p hp').1
      · exact (hstat p hp').1
    set L := ([("12", x1), ("L", x2)] ++ (n0 :: ntail) ++ statToks).map
      (fun p => (⟨p.1, p.2, 0, 0⟩ : LineToken)) with hL
    have hptok : playerTokens ⟨y, page, L⟩ =
        (⟨"12", x1, 0, 0⟩ : StatToken) :: (⟨"L", x2, 0, 0⟩ : StatToken) ::
          ((n0 :: ntail).map (fun p => (⟨p.1, p.2, 0, 0⟩ : StatToken)) ++
            statToks.map (fun p => (⟨p.1, p.2, 0, 0⟩ : StatToken))) := by
      rw [playerTokens_simple _ _ _ hsimple, hL]
      simp only [List.map_map, List.map_append, List.map_cons, List.map_nil, Function.comp,
        List.cons_append, List.nil_append]
      rfl
    have h0 : (playerTokens ⟨y, page, L⟩).isEmpty = false := by
      rw [hptok]
      rfl
    have hfind : findNumberIndex (playerTokens ⟨y, page, L⟩) = some (0, "12") := by
      rw [hptok]
      rfl
    rw [parsePlayerLine_eq_of_find _ 0 "12" h0 hfind, hptok]
    have hn0 : isAllLetterL ((n0.1.toList.filter isAsciiLetter)) = false :=
      hhead n0 rfl
    have hrem : (((⟨"12", x1, 0, 0⟩ : StatToken) :: (⟨"L", x2, 0, 0⟩ : StatToken) ::
        ((n0 :: ntail).map (fun p => (⟨p.1, p.2, 0, 0⟩ : StatToken)) ++
          statToks.map (fun p => (⟨p.1, p.2, 0, 0⟩ : StatToken)))).drop 1).dropWhile
        (fun t => isAllLetterL (t.text.toList.filter isAsciiLetter)) =
        ((n0 :: ntail).map (fun p => (⟨p.1, p.2, 0, 0⟩ : StatToken)) ++
          statToks.map (fun p => (⟨p.1, p.2, 0, 0⟩ : StatToken))) := by
      rw [List.drop_succ_cons, List.drop_zero, List.dropWhile_cons]
      have hLtok : isAllLetterL (((⟨"L", x2, 0, 0⟩ : StatToken).text.toList.filter
          isAsciiLetter)) = true := by
        show isAllLetterL (("L" : String).toList.filter isAsciiLetter) = true
        decide
      rw [hLtok]
      simp only [if_true]
      rw [List.map_cons, List.cons_append, List.dropWhile_cons]
      rw [show (⟨n0.1, n0.2, 0, 0⟩ : StatToken).text = n0.1 from rfl, hn0]
      simp
    rw [hrem]
    have hsplit := takeWhile_dropWhile_append (fun t : StatToken => !isStatValue t.text)
      ((n0 :: ntail).map (fun p => (⟨p.1, p.2, 0, 0⟩ : StatToken)))
      (statToks.map (fun p => (⟨p.1, p.2, 0, 0⟩ : StatToken)))
      (by
        intro a ha
        rw [List.mem_map] at ha
        obtain ⟨p, hp, rfl⟩ := ha
        simp [(hname p hp).2.1])
      (by
        intro b hb
        cases statToks with
        | nil => simp at hb
        | cons q qt =>
          simp only [List.map_cons, List.head?_cons, Option.some_inj] at hb
          subst hb
          simp [(hstat q (List.mem_cons_self ..)).2])
    have hfilter : (((n0 :: ntail).map (fun p => (⟨p.1, p.2, 0, 0⟩ : StatToken))).filter
        (fun t : StatToken => !(t.text.toList.filter isNameChar).isEmpty)) =
        (n0 :: ntail).map (fun p => (⟨p.1, p.2, 0, 0⟩ : StatToken)) := by
      rw [List.filter_eq_self]
      intro a ha
      rw [List.mem_map] at ha
      obtain ⟨p, hp, rfl⟩ := ha
      show (!(List.filter isNameChar p.1.toList).isEmpty) = true
      rw [(hname p hp).2.2]
      rfl
    have hclass : classifyTokens
        ((n0 :: ntail).map (fun p => (⟨p.1, p.2, 0, 0⟩ : StatToken)) ++
          statToks.map (fun p => (⟨p.1, p.2, 0, 0⟩ : StatToken))) false =
        ((n0 :: ntail).map Prod.fst,
          statToks.map (fun p => (⟨p.1, p.2, 0, 0⟩ : StatToken))) := by
      rw [classifyTokens_false_eq, hsplit.1, hsplit.2, hfilter, List.map_map]
      rfl
    rw [hclass]
    have hname_ne : jsTrim (joinSep " " ((n0 :: ntail).map Prod.fst)) ≠ "" := by
      have hn0s := (hname n0 (List.mem_cons_self ..)).1
      obtain ⟨c, hc⟩ : ∃ c, c ∈ n0.1.toList := by
        cases hh : n0.1.toList with
        | nil =>
          exfalso
          apply hn0s.1
          have := congrArg String.mk hh
          simpa using this
        | cons c t => exact ⟨c, by simp [hh]⟩
      refine jsTrim_ne_empty _ c ?_ (hn0s.2 c hc)
      exact joinSep_head_mem " " n0.1 (ntail.map Prod.fst) c hc
    rw [if_neg hname_ne]
    congr 1
    refine PlayerRec.mk.injEq .. ▸ ⟨rfl, rfl, ?_, rfl, rfl⟩
    rw [List.map_map]
    rfl
  · intro line h
    unfold parsePlayerLine
    cases htoks : playerTokens line with
    | nil => simp
    | cons t rest =>
      have := findNumberIndexAux_none (t :: rest) 0 (by rw [← htoks]; simpa using h)
      simp only [List.isEmpty_cons, Bool.false_eq_true, if_false, findNumberIndex, this]
  · intro s xx w hh hlen
    unfold numberCandidate
    simp only [hlen]
    norm_num

/-- A line whose first token is the 4-digit `"1234"` but whose second token
is a valid 1-digit number. -/
def c6CounterLine : Line :=
  ⟨0, 1, [⟨"1234", 0, 0, 0⟩, ⟨"7", 10, 0, 0⟩, ⟨"Ana", 20, 0, 0⟩, ⟨".", 30, 0, 0⟩]⟩

/-- C6, counterexample: a line *starting* with a 4-digit token does not
necessarily fail to parse — the number scan simply skips the 4-digit token
and accepts a later token among the first three, here parsing
`["1234", "7", "Ana", "."]` to a player with `number = 7`. -/
theorem c6_counterexample :
    (c6CounterLine.tokens.map (fun t => t.str)).head? = some "1234" ∧
      ("1234").toList.all Char.isDigit = true ∧ ("1234").length = 4 ∧
      parsePlayerLine c6CounterLine =
        some ⟨7, "Ana", ["."], "1234 7 Ana .", [⟨".", 30, 0, 0⟩]⟩ :=
  ⟨rfl, rfl, rfl, by decide⟩

/-- Name tokens for the C6 witness. -/
def c6NameToks : List (String × ℚ) := [("Ana", 20)]

/-- Stat tokens for the C6 witness. -/
def c6StatToks : List (String × ℚ) := [(".", 30)]

/-- A line all of whose first three normalised tokens fail the number test. -/
def c6FailLine : Line :=
  ⟨0, 1, [⟨"1234", 0, 0, 0⟩, ⟨"Name", 10, 0, 0⟩, ⟨"Uber", 20, 0, 0⟩]⟩

/-- Witness for C6 at concrete inputs: `["12", "L", "Ana", "."]` parses to
number 12 and name `"Ana"` (libero marker excluded), a line whose first
three tokens all fail the number test parses to `none`, and a 4-digit token
is never accepted by the number test. -/
theorem c6_number_and_libero_witness :
    parsePlayerLine ⟨0, 1, (([("12", 0), ("L", 10)] : List (String × ℚ)) ++ c6NameToks ++
        c6StatToks).map (fun p => (⟨p.1, p.2, 0, 0⟩ : LineToken))⟩ =
      some ⟨12, "Ana", ["."], "12 L Ana .", [⟨".", 30, 0, 0⟩]⟩ ∧
      parsePlayerLine c6FailLine = none ∧
      numberCandidate ⟨"5678", 0, 0, 0⟩ = none := by
  refine ⟨?_, c6_number_and_libero.2.1 c6FailLine (by decide),
    c6_number_and_libero.2.2 "5678" 0 0 0 (by decide)⟩
  have h := c6_number_and_libero.1 0 10 0 1 c6NameToks c6StatToks (by decide)
    (by
      intro b hb
      have hb' : some (("Ana", 20) : String × ℚ) = some b := hb
      injection hb' with hb2
      subst hb2
      decide)
    (by decide) (by decide)
  rw [h]
  decide

/-! ### `mapTokensToColumns` (token-to-column mapper, §4.5) -/

/-- `COLUMN_TOLERANCE = 14`. -/
def COLUMN_TOLERANCE : ℚ := 14

/-- `HEIGHT_TOLERANCE = 5`. -/
def HEIGHT_TOLERANCE : ℚ := 5

/-- `EMPTY_VALUE_PLACEHOLDER = '.'`. -/
def EMPTY_VALUE_PLACEHOLDER : String := "."

/-- `normalizeTokenText(value)`: `""` for a non-string (modelled as `none`),
otherwise strip parentheses and trim. -/
def normalizeTokenText : Option String → String
  | none => ""
  | some s => jsTrim (String.mk (s.toList.filter (fun c => !(c = '(' || c = ')'))))

/-- A column anchor `{ start, end, center, height }`; the source field `end`
is a reserved word in Lean and is modelled as `endP`. -/
structure Anchor where
  start : ℚ
  endP : ℚ
  center : ℚ
  height : ℚ
deriving DecidableEq, Inhabited

/-- The per-anchor score computed inside the `columnAnchors.forEach` loop of
`mapTokensToColumns`: centre distance, plus the height penalty (only when
the anchor records a nonzero height — `anchor.height ? … : 0` — and the
difference exceeds the 5-unit tolerance), plus 25 when the token's
horizontal span does not overlap the anchor's span within 14 units. -/
def codeScore (anchor : Anchor) (token : StatToken) : ℚ :=
  let width := token.width
  let height := token.height
  let start := token.x
  let endX := start + width
  let center := start + width / 2
  let overlapsHorizontally :=
    (anchor.start - COLUMN_TOLERANCE ≤ start ∧ start ≤ anchor.endP + COLUMN_TOLERANCE) ∨
    (anchor.start - COLUMN_TOLERANCE ≤ endX ∧ endX ≤ anchor.endP + COLUMN_TOLERANCE) ∨
    (start ≤ anchor.start ∧ anchor.endP ≤ endX)
  let heightDiff := if anchor.height ≠ 0 then |anchor.height - height| else 0
  let heightPenalty := if heightDiff > HEIGHT_TOLERANCE then heightDiff else 0
  |anchor.center - center| + heightPenalty + (if overlapsHorizontally then 0 else 25)

/-- The `bestIndex`/`bestScore` selection loop over the anchors (`best =
none` models the initial `bestScore = Infinity`, `bestIndex = -1`). -/
def pickBestAux (token : StatToken) (occupied : List Bool) :
    List Anchor → ℕ → Option (ℕ × ℚ) → Option (ℕ × ℚ)
  | [], _, best => best
  | a :: rest, idx, best =>
    if occupied.getD idx false then pickBestAux token occupied rest (idx + 1) best
    else
      let score := codeScore a token
      let isBetter : Bool :=
        match best with
        | none => true
        | some (_, bestScore) => decide (score < bestScore)
      pickBestAux token occupied rest (idx + 1) (if isBetter then some (idx, score) else best)

/-- The anchor index the token is assigned to (`-1` modelled as `none`). -/
def pickBest (token : StatToken) (anchors : List Anchor) (occupied : List Bool) : Option ℕ :=
  (pickBestAux token occupied anchors 0 none).map Prod.fst

/-- The `safeTokens.forEach` loop: assign each nonempty normalised token to
its winning anchor and mark the anchor occupied. -/
def assignTokens (anchors : List Anchor) : List StatToken → List String × List Bool →
    List String × List Bool
  | [], st => st
  | token :: rest, (result, occupied) =>
    let value := normalizeTokenText (some token.text)
    if value = "" then assignTokens anchors rest (result, occupied)
    else
      match pickBest token anchors occupied with
      | none => assignTokens anchors rest (result, occupied)
      | some bestIndex =>
        assignTokens anchors rest (result.set bestIndex value, occupied.set bestIndex true)

/-- `mapTokensToColumns(tokens, columnAnchors, columnLabels)`. -/
def mapTokensToColumns (tokens : List StatToken) (columnAnchors : Option (List Anchor))
    (columnLabels : List String) : List String :=
  let labels := if columnLabels ≠ [] then columnLabels else buildTableColumnLabels
  let fallback := labels.mapIdx (fun index _ =>
    let value := normalizeTokenText ((tokens[index]?).map (fun t => t.text))
    if value ≠ "" then value else EMPTY_VALUE_PLACEHOLDER)
  match columnAnchors with
  | none => fallback
  | some anchors =>
    if anchors.length ≠ labels.length then fallback
    else
      (assignTokens anchors tokens
        (labels.map (fun _ => EMPTY_VALUE_PLACEHOLDER), anchors.map (fun _ => false))).1

/-! ### `inferColumnAnchors` (§4.4) -/

/-- The anchor literal `{ start: token.x, end: token.x + width,
center: token.x + width / 2, height: token.height ?? 0 }` built by both
anchor-inference strategies. -/
def anchorOfToken (t : StatToken) : Anchor :=
  ⟨t.x, t.x + t.width, t.x + t.width / 2, t.height⟩

/-- The `{ anchors, detectedSetCount }` result of anchor inference. -/
structure InferResult where
  anchors : Option (List Anchor)
  detectedSetCount : ℤ
deriving DecidableEq, Inhabited

/-- `inferAnchorsFromHeader(lines)`: find the canonical header row (text
containing `pos%`, `vote` and `blo`), flatten its tokens (the same
trim-and-filter normalisation as `parsePlayerLine`, hence `playerTokens`),
locate the `"1"` set column, count the set columns up to the `vote` token
(default 4 when `vote` is missing or immediate), and take one anchor per
label from the following tokens. -/
def inferAnchorsFromHeader (lines : List Line) : Option InferResult :=
  if lines.isEmpty then none
  else
    match lines.find? (fun line =>
      let text := jsToLower (getLineText line)
      containsSub text "pos%" && containsSub text "vote" && containsSub text "blo") with
    | none => none
    | some headerLine =>
      let flattenedTokens := playerTokens headerLine
      match flattenedTokens.findIdx? (fun t => t.text = "1") with
      | none => none
      | some firstDataIndex =>
        let dataTokens := flattenedTokens.drop firstDataIndex
        if dataTokens.isEmpty then none
        else
          let setCount : ℤ :=
            match dataTokens.findIdx? (fun t => jsToLower t.text = "vote") with
            | some i => if 0 < i then (i : ℤ) else DEFAULT_SET_COLUMNS
            | none => DEFAULT_SET_COLUMNS
          let columnLabels := buildTableColumnLabels setCount
          if dataTokens.length < columnLabels.length then none
          else
            some ⟨some (columnLabels.mapIdx (fun index _ =>
              anchorOfToken (dataTokens.getD index default))), setCount⟩

/-- The descending-length comparator `(a, b) => b.length - a.length`. -/
def statLenGE (a b : List StatToken) : Prop := b.length ≤ a.length

instance : DecidableRel statLenGE := fun a b =>
  inferInstanceAs (Decidable (b.length ≤ a.length))

/-- `inferColumnAnchors(players, lines, currentSetCount)`: header strategy
first, else the stat tokens of the player with the most nonempty stat
tokens, provided it has at least one token per label. -/
def inferColumnAnchors (players : List PlayerRec) (lines : List Line)
    (currentSetCount : ℤ := DEFAULT_SET_COLUMNS) : InferResult :=
  match inferAnchorsFromHeader lines with
  | some headerResult => headerResult
  | none =>
    let columnLabels := buildTableColumnLabels currentSetCount
    if players.isEmpty then ⟨none, currentSetCount⟩
    else
      match (List.insertionSort statLenGE
          ((players.map (fun p => p.statTokens.filter (fun t => jsTrim t.text ≠ ""))).filter
            (fun ts => columnLabels.length ≤ ts.length))).head? with
      | none => ⟨none, currentSetCount⟩
      | some candidateTokens =>
        ⟨some (columnLabels.mapIdx (fun index _ =>
          anchorOfToken (candidateTokens.getD index default))), currentSetCount⟩

/-! #### Lemmas about the selection loop -/

/-- Definitional unfolding of one loop iteration. -/
theorem pickBestAux_cons (token : StatToken) (occupied : List Bool) (a : Anchor)
    (rest : List Anchor) (idx : ℕ) (best : Option (ℕ × ℚ)) :
    pickBestAux token occupied (a :: rest) idx best =
      if occupied.getD idx false then pickBestAux token occupied rest (idx + 1) best
      else
        pickBestAux token occupied rest (idx + 1)
          (if (match best with
                | none => true
                | some (_, bestScore) => decide (codeScore a token < bestScore)) = true
            then some (idx, codeScore a token) else best) := rfl

/-- Full invariant of the `bestScore`/`bestIndex` loop: (a) a returned pair
is either the incoming best or an unoccupied anchor of the scanned suffix
carrying its own score, (b) the result never scores worse than the incoming
best and changes only by strict improvement, (c) the result dominates every
unoccupied anchor of the scanned suffix, winning ties by lower index. -/
theorem pickBestAux_spec (token : StatToken) (occupied : List Bool) :
    ∀ (rest : List Anchor) (idx : ℕ) (best : Option (ℕ × ℚ)),
      (∀ j s, best = some (j, s) → j < idx) →
      ((∀ j s, pickBestAux token occupied rest idx best = some (j, s) →
        (best = some (j, s) ∨
          (idx ≤ j ∧ j < idx + rest.length ∧ occupied.getD j false = false ∧
            s = codeScore (rest.getD (j - idx) default) token))) ∧
      (∀ j₀ s₀, best = some (j₀, s₀) →
        ∃ j s, pickBestAux token occupied rest idx best = some (j, s) ∧
          (s < s₀ ∨ (j = j₀ ∧ s = s₀))) ∧
      (∀ k, k < rest.length → occupied.getD (idx + k) false = false →
        ∃ j s, pickBestAux token occupied rest idx best = some (j, s) ∧
          s ≤ codeScore (rest.getD k default) token ∧
          (s = codeScore (rest.getD k default) token → j ≤ idx + k))) := by
  intro rest
  induction rest with
  | nil =>
    intro idx best hpre
    refine ⟨?_, ?_, ?_⟩
    · intro j s h
      exact Or.inl h
    · intro j₀ s₀ h
      exact ⟨j₀, s₀, h, Or.inr ⟨rfl, rfl⟩⟩
    · intro k hk
      simp at hk
  | cons a rest ih =>
    intro idx best hpre
    by_cases hocc : occupied.getD idx false = true
    · have heq : pickBestAux token occupied (a :: rest) idx best =
          pickBestAux token occupied rest (idx + 1) best := by
        rw [pickBestAux_cons, hocc]
        exact if_pos rfl
      have hpre' : ∀ j s, best = some (j, s) → j < idx + 1 :=
        fun j s h => Nat.lt_succ_of_lt (hpre j s h)
      obtain ⟨ihA, ihB, ihC⟩ := ih (idx + 1) best hpre'
      refine ⟨?_, ?_, ?_⟩
      · intro j s h
        rw [heq] at h
        rcases ihA j s h with h' | ⟨h1, h2, h3, h4⟩
        · exact Or.inl h'
        · refine Or.inr ⟨by omega, by simp only [List.length_cons]; omega, h3, ?_⟩
          have hj : j - idx = (j - (idx + 1)) + 1 := by omega
          rw [hj, List.getD_cons_succ]
          exact h4
      · intro j₀ s₀ h
        rw [heq]
        exact ihB j₀ s₀ h
      · intro k hk hkocc
        rw [heq]
        match k with
        | 0 =>
          rw [Nat.add_zero] at hkocc
          rw [hocc] at hkocc
          exact absurd hkocc (by simp)
        | k + 1 =>
          have hk' : k < rest.length := by
            simp only [List.length_cons] at hk
            omega
          have hkocc' : occupied.getD (idx + 1 + k) false = false := by
            rw [show idx + 1 + k = idx + (k + 1) from by omega]
            exact hkocc
          obtain ⟨j, s, h1, h2, h3⟩ := ihC k hk' hkocc'
          refine ⟨j, s, h1, by simpa using h2, ?_⟩
          intro he
          have := h3 (by simpa using he)
          omega
    · have hocc' : occupied.getD idx false = false := by
        simpa using hocc
      cases hbest : best with
      | none =>
        have heq : pickBestAux token occupied (a :: rest) idx none =
            pickBestAux token occupied rest (idx + 1) (some (idx, codeScore a token)) := by
          rw [pickBestAux_cons, hocc']
          rw [if_neg (by simp)]
          rfl
        have hpre' : ∀ j s, some (idx, codeScore a token) = some (j, s) → j < idx + 1 := by
          intro j s h
          injection h with h'
          have hfst : idx = j := congrArg Prod.fst h'
          omega
        obtain ⟨ihA, ihB, ihC⟩ := ih (idx + 1) (some (idx, codeScore a token)) hpre'
        refine ⟨?_, ?_, ?_⟩
        · intro j s h
          rw [heq] at h
          rcases ihA j s h with h' | ⟨h1, h2, h3, h4⟩
          · injection h' with h''
            have hj : idx = j := congrArg Prod.fst h''
            have hs : s = codeScore a token := (congrArg Prod.snd h'').symm
            subst hj
            refine Or.inr ⟨le_refl idx, by simp only [List.length_cons]; omega, hocc', ?_⟩
            rw [Nat.sub_self, List.getD_cons_zero]
            exact hs
          · refine Or.inr ⟨by omega, by simp only [List.length_cons]; omega, h3, ?_⟩
            have hj : j - idx = (j - (idx + 1)) + 1 := by omega
            rw [hj, List.getD_cons_succ]
            exact h4
        · intro j₀ s₀ h
          exact Option.noConfusion h
        · intro k hk hkocc
          rw [heq]
          cases k with
          | zero =>
            obtain ⟨j, s, h1, h2⟩ := ihB idx (codeScore a token) rfl
            rw [Nat.add_zero, List.getD_cons_zero]
            refine ⟨j, s, h1, ?_, ?_⟩
            · rcases h2 with h2 | ⟨_, h2⟩
              · exact le_of_lt h2
              · exact le_of_eq h2
            · intro he
              rcases h2 with h2 | ⟨hj, _⟩
              · rw [he] at h2
                exact absurd h2 (lt_irrefl _)
              · omega
          | succ k =>
            have hk' : k < rest.length := by
              simp only [List.length_cons] at hk
              omega
            have hkocc' : occupied.getD (idx + 1 + k) false = false := by
              rw [show idx + 1 + k = idx + (k + 1) from by omega]
              exact hkocc
            obtain ⟨j, s, h1, h2, h3⟩ := ihC k hk' hkocc'
            rw [List.getD_cons_succ]
            refine ⟨j, s, h1, h2, ?_⟩
            intro he
            have := h3 he
            omega
      | some pair =>
        obtain ⟨j₀', s₀'⟩ := pair
        have hj₀' : j₀' < idx := hpre j₀' s₀' hbest
        by_cases hcmp : codeScore a token < s₀'
        · have heq : pickBestAux token occupied (a :: rest) idx (some (j₀', s₀')) =
              pickBestAux token occupied rest (idx + 1) (some (idx, codeScore a token)) := by
            rw [pickBestAux_cons, hocc']
            rw [if_neg (by simp)]
            rw [if_pos (decide_eq_true hcmp)]
          have hpre' : ∀ j s, some (idx, codeScore a token) = some (j, s) → j < idx + 1 := by
            intro j s h
            injection h with h'
            have hfst : idx = j := congrArg Prod.fst h'
            omega
          obtain ⟨ihA, ihB, ihC⟩ := ih (idx + 1) (some (idx, codeScore a token)) hpre'
          refine ⟨?_, ?_, ?_⟩
          · intro j s h
            rw [heq] at h
            rcases ihA j s h with h' | ⟨h1, h2, h3, h4⟩
            · injection h' with h''
              have hj : idx = j := congrArg Prod.fst h''
              have hs : s = codeScore a token := (congrArg Prod.snd h'').symm
              subst hj
              refine Or.inr ⟨le_refl idx, by simp only [List.length_cons]; omega, hocc', ?_⟩
              rw [Nat.sub_self, List.getD_cons_zero]
              exact hs
            · refine Or.inr ⟨by omega, by simp only [List.length_cons]; omega, h3, ?_⟩
              have hj : j - idx = (j - (idx + 1)) + 1 := by omega
              rw [hj, List.getD_cons_succ]
              exact h4
          · intro j₀ s₀ h
            injection h with h'
            have hj : j₀' = j₀ := congrArg Prod.fst h'
            have hs : s₀' = s₀ := congrArg Prod.snd h'
            rw [heq]
            obtain ⟨j, s, h1, h2⟩ := ihB idx (codeScore a token) rfl
            refine ⟨j, s, h1, Or.inl ?_⟩
            rw [← hs]
            rcases h2 with h2 | ⟨_, h2⟩
            · exact lt_trans h2 hcmp
            · rw [h2]
              exact hcmp
          · intro k hk hkocc
            rw [heq]
            cases k with
            | zero =>
              obtain ⟨j, s, h1, h2⟩ := ihB idx (codeScore a token) rfl
              rw [Nat.add_zero, List.getD_cons_zero]
              refine ⟨j, s, h1, ?_, ?_⟩
              · rcases h2 with h2 | ⟨_, h2⟩
                · exact le_of_lt h2
                · exact le_of_eq h2
              · intro he
                rcases h2 with h2 | ⟨hj, _⟩
                · rw [he] at h2
                  exact absurd h2 (lt_irrefl _)
                · omega
            | succ k =>
              have hk' : k < rest.length := by
                simp only [List.length_cons] at hk
                omega
              have hkocc' : occupied.getD (idx + 1 + k) false = false := by
                rw [show idx + 1 + k = idx + (k + 1) from by omega]
                exact hkocc
              obtain ⟨j, s, h1, h2, h3⟩ := ihC k hk' hkocc'
              rw [List.getD_cons_succ]
              refine ⟨j, s, h1, h2, ?_⟩
              intro he
              have := h3 he
              omega
        · have hle : s₀' ≤ codeScore a token := le_of_not_lt hcmp
          have heq : pickBestAux token occupied (a :: rest) idx (some (j₀', s₀')) =
              pickBestAux token occupied rest (idx + 1) (some (j₀', s₀')) := by
            rw [pickBestAux_cons, hocc']
            rw [if_neg (by simp)]
            rw [if_neg (by simp only [decide_eq_true_eq]; exact hcmp)]
          have hpre' : ∀ j s, some (j₀', s₀') = some (j, s) → j < idx + 1 := by
            intro j s h
            injection h with h'
            have hfst : j₀' = j := congrArg Prod.fst h'
            omega
          obtain ⟨ihA, ihB, ihC⟩ := ih (idx + 1) (some (j₀', s₀')) hpre'
          refine ⟨?_, ?_, ?_⟩
          · intro j s h
            rw [heq] at h
            rcases ihA j s h with h' | ⟨h1, h2, h3, h4⟩
            · exact Or.inl h'
            · refine Or.inr ⟨by omega, by simp only [List.length_cons]; omega, h3, ?_⟩
              have hj : j - idx = (j - (idx + 1)) + 1 := by omega
              rw [hj, List.getD_cons_succ]
              exact h4
          · intro j₀ s₀ h
            injection h with h'
            have hj : j₀' = j₀ := congrArg Prod.fst h'
            have hs : s₀' = s₀ := congrArg Prod.snd h'
            rw [heq, ← hj, ← hs]
            exact ihB j₀' s₀' rfl
          · intro k hk hkocc
            rw [heq]
            cases k with
            | zero =>
              obtain ⟨j, s, h1, h2⟩ := ihB j₀' s₀' rfl
              rw [Nat.add_zero, List.getD_cons_zero]
              refine ⟨j, s, h1, ?_, ?_⟩
              · rcases h2 with h2 | ⟨_, h2⟩
                · exact le_of_lt (lt_of_lt_of_le h2 hle)
                · exact le_trans (le_of_eq h2) hle
              · intro he
                rcases h2 with h2 | ⟨hj, hs⟩
                · exfalso
                  rw [he] at h2
                  exact absurd (lt_of_lt_of_le h2 hle) (lt_irrefl _)
                · omega
            | succ k =>
              have hk' : k < rest.length := by
                simp only [List.length_cons] at hk
                omega
              have hkocc' : occupied.getD (idx + 1 + k) false = false := by
                rw [show idx + 1 + k = idx + (k + 1) from by omega]
                exact hkocc
              obtain ⟨j, s, h1, h2, h3⟩ := ihC k hk' hkocc'
              rw [List.getD_cons_succ]
              refine ⟨j, s, h1, h2, ?_⟩
              intro he
              have := h3 he
              omega

/-- The selection loop returns an unoccupied in-range anchor whose score is
minimal among all unoccupied anchors, winning ties by lowest index. -/
theorem pickBest_optimal (token : StatToken) (anchors : List Anchor) (occupied : List Bool)
    (j : ℕ) (h : pickBest token anchors occupied = some j) :
    j < anchors.length ∧ occupied.getD j false = false ∧
      ∀ i, i < anchors.length → occupied.getD i false = false →
        codeScore (anchors.getD j default) token ≤ codeScore (anchors.getD i default) token ∧
          (codeScore (anchors.getD i default) token =
            codeScore (anchors.getD j default) token → j ≤ i) := by
  unfold pickBest at h
  obtain ⟨⟨j', s⟩, hx, hfst⟩ := Option.map_eq_some'.mp h
  have hj' : j' = j := hfst
  subst hj'
  obtain ⟨ihA, ihB, ihC⟩ := pickBestAux_spec token occupied anchors 0 none
    (by intro _ _ h'; cases h')
  rcases ihA j' s hx with h' | ⟨_, h2, h3, h4⟩
  · cases h'
  have hj0 : s = codeScore (anchors.getD j' default) token := by
    simpa using h4
  refine ⟨by simpa using h2, h3, ?_⟩
  intro i hi hiocc
  obtain ⟨j2, s2, hx2, hle, htie⟩ := ihC i (by simpa using hi) (by simpa using hiocc)
  have hinj := hx.symm.trans hx2
  injection hinj with hp
  have hj2 : j' = j2 := congrArg Prod.fst hp
  have hs2 : s = s2 := congrArg Prod.snd hp
  constructor
  · rw [← hj0, hs2]
    exact hle
  · intro he
    have : s2 = codeScore (anchors.getD i default) token := by
      rw [← hs2, hj0, he]
    have := htie this
    omega

/-- Definitional unfolding of one assignment step. -/
theorem assignTokens_cons (anchors : List Anchor) (token : StatToken) (rest : List StatToken)
    (result : List String) (occupied : List Bool) :
    assignTokens anchors (token :: rest) (result, occupied) =
      (if normalizeTokenText (some token.text) = "" then
        assignTokens anchors rest (result, occupied)
      else
        match pickBest token anchors occupied with
        | none => assignTokens anchors rest (result, occupied)
        | some bestIndex =>
          assignTokens anchors rest
            (result.set bestIndex (normalizeTokenText (some token.text)),
              occupied.set bestIndex true)) := rfl

/-- Once an anchor is marked occupied, later tokens never overwrite its
cell, and it stays occupied: each anchor receives at most one token. -/
theorem assignTokens_preserve (anchors : List Anchor) :
    ∀ (toks : List StatToken) (result : List String) (occupied : List Bool) (j : ℕ),
      occupied.getD j false = true →
      (assignTokens anchors toks (result, occupied)).1.getD j "." = result.getD j "." ∧
        (assignTokens anchors toks (result, occupied)).2.getD j false = true := by
  intro toks
  induction toks with
  | nil =>
    intro result occupied j hj
    exact ⟨rfl, hj⟩
  | cons token rest ih =>
    intro result occupied j hj
    rw [assignTokens_cons]
    by_cases hv : normalizeTokenText (some token.text) = ""
    · rw [if_pos hv]
      exact ih result occupied j hj
    · rw [if_neg hv]
      cases hpick : pickBest token anchors occupied with
      | none => exact ih result occupied j hj
      | some bestIndex =>
        have hopt := pickBest_optimal token anchors occupied bestIndex hpick
        have hne : bestIndex ≠ j := by
          intro he
          rw [he, hj] at hopt
          exact Bool.noConfusion hopt.2.1
        have hres : (result.set bestIndex (normalizeTokenText (some token.text))).getD j "." =
            result.getD j "." := by
          rw [List.getD_eq_getElem?_getD, List.getElem?_set_ne hne,
            ← List.getD_eq_getElem?_getD]
        have hocc : (occupied.set bestIndex true).getD j false = true := by
          rw [List.getD_eq_getElem?_getD, List.getElem?_set_ne hne,
            ← List.getD_eq_getElem?_getD]
          exact hj
        obtain ⟨ha, hb⟩ := ih (result.set bestIndex (normalizeTokenText (some token.text)))
          (occupied.set bestIndex true) j hocc
        exact ⟨ha.trans hres, hb⟩

/-- The assignment loop never changes the result length. -/
theorem assignTokens_length (anchors : List Anchor) :
    ∀ (toks : List StatToken) (result : List String) (occupied : List Bool),
      (assignTokens anchors toks (result, occupied)).1.length = result.length := by
  intro toks
  induction toks with
  | nil => intro result occupied; rfl
  | cons token rest ih =>
    intro result occupied
    rw [assignTokens_cons]
    by_cases hv : normalizeTokenText (some token.text) = ""
    · rw [if_pos hv]
      exact ih result occupied
    · rw [if_neg hv]
      cases pickBest token anchors occupied with
      | none => exact ih result occupied
      | some bestIndex =>
        rw [ih]
        exact List.length_set ..

/-- Every cell of the assignment result is either an initial cell or the
normalised nonempty text of one of the processed tokens. -/
theorem assignTokens_cells (anchors : List Anchor) :
    ∀ (toks : List StatToken) (result : List String) (occupied : List Bool) (s : String),
      s ∈ (assignTokens anchors toks (result, occupied)).1 →
      s ∈ result ∨ ∃ t ∈ toks, s = normalizeTokenText (some t.text) ∧ s ≠ "" := by
  intro toks
  induction toks with
  | nil =>
    intro result occupied s hs
    exact Or.inl hs
  | cons token rest ih =>
    intro result occupied s hs
    rw [assignTokens_cons] at hs
    by_cases hv : normalizeTokenText (some token.text) = ""
    · rw [if_pos hv] at hs
      rcases ih result occupied s hs with h | ⟨t, ht, he⟩
      · exact Or.inl h
      · exact Or.inr ⟨t, List.mem_cons_of_mem _ ht, he⟩
    · rw [if_neg hv] at hs
      cases hpick : pickBest token anchors occupied with
      | none =>
        rw [hpick] at hs
        rcases ih result occupied s hs with h | ⟨t, ht, he⟩
        · exact Or.inl h
        · exact Or.inr ⟨t, List.mem_cons_of_mem _ ht, he⟩
      | some bestIndex =>
        rw [hpick] at hs
        rcases ih _ _ s hs with h | ⟨t, ht, he⟩
        · rcases List.mem_or_eq_of_mem_set h with h' | rfl
          · exact Or.inl h'
          · exact Or.inr ⟨token, List.mem_cons_self .., rfl, hv⟩
        · exact Or.inr ⟨t, List.mem_cons_of_mem _ ht, he⟩

/-- The score as claim C4 words it: the height penalty is the absolute
anchor/token height difference whenever that difference exceeds the 5-unit
tolerance, with no condition on the anchor's recorded height. This
definition follows the claim's wording (not the source, whose
`anchor.height ? … : 0` guard skips the penalty for a zero-height anchor)
and exists only to be compared with `codeScore`. -/
def specScore (anchor : Anchor) (token : StatToken) : ℚ :=
  let width := token.width
  let start := token.x
  let endX := start + width
  let center := start + width / 2
  let overlapsHorizontally :=
    (anchor.start - COLUMN_TOLERANCE ≤ start ∧ start ≤ anchor.endP + COLUMN_TOLERANCE) ∨
    (anchor.start - COLUMN_TOLERANCE ≤ endX ∧ endX ≤ anchor.endP + COLUMN_TOLERANCE) ∨
    (start ≤ anchor.start ∧ anchor.endP ≤ endX)
  let heightDiff := |anchor.height - token.height|
  let heightPenalty := if heightDiff > HEIGHT_TOLERANCE then heightDiff else 0
  |anchor.center - center| + heightPenalty + (if overlapsHorizontally then 0 else 25)

/-- C4 counterexample: token `{text "5", x 0, width 0, height 100}` against
anchors `{0,0,0,0}` and `{5,5,5,100}`. The code assigns it to anchor 0
(`["5", "."]`) because the zero-height anchor's height penalty is skipped
by the `anchor.height ? … : 0` guard, although under the claim's score
(unconditional height penalty beyond 5 units) anchor 1 is strictly
better. -/
theorem c4_counterexample :
    mapTokensToColumns [⟨"5", 0, 0, 100⟩]
        (some [⟨0, 0, 0, 0⟩, ⟨5, 5, 5, 100⟩]) ["A", "B"] = ["5", "."] ∧
      specScore ⟨5, 5, 5, 100⟩ ⟨"5", 0, 0, 100⟩ <
        specScore ⟨0, 0, 0, 0⟩ ⟨"5", 0, 0, 100⟩ := by
  constructor
  · with_unfolding_all decide
  · with_unfolding_all decide

/-- C4: when anchors match the labels in number, tokens are processed in
their original order; each token with nonempty normalised text goes to the
unoccupied anchor minimising the code's score (first such anchor on ties),
the winner is marked occupied, and an occupied anchor's cell and flag are
never touched again — each anchor receives at most one token. The score's
height penalty, however, additionally requires `anchor.height ≠ 0`
(see `c4_counterexample`). -/
theorem c4_greedy_assignment :
    (∀ (token : StatToken) (anchors : List Anchor) (occupied : List Bool) (j : ℕ),
      pickBest token anchors occupied = some j →
        j < anchors.length ∧ occupied.getD j false = false ∧
          ∀ i, i < anchors.length → occupied.getD i false = false →
            codeScore (anchors.getD j default) token ≤
                codeScore (anchors.getD i default) token ∧
              (codeScore (anchors.getD i default) token =
                codeScore (anchors.getD j default) token → j ≤ i)) ∧
    (∀ (anchors : List Anchor) (toks : List StatToken) (result : List String)
        (occupied : List Bool) (j : ℕ),
      occupied.getD j false = true →
        (assignTokens anchors toks (result, occupied)).1.getD j "." = result.getD j "." ∧
          (assignTokens anchors toks (result, occupied)).2.getD j false = true) ∧
    pickBest ⟨"5", 0, 0, 100⟩ [⟨0, 0, 0, 0⟩, ⟨5, 5, 5, 100⟩] [true, false] = some 1 := by
  refine ⟨?_, ?_, ?_⟩
  · intro token anchors occupied j h
    exact pickBest_optimal token anchors occupied j h
  · intro anchors toks result occupied j h
    exact assignTokens_preserve anchors toks result occupied j h
  · with_unfolding_all decide

/-- `mapIdx` with an index-only function is a map over `range`. -/
theorem mapIdx_const_eq_range_map {α β : Type} (g : ℕ → β) :
    ∀ l : List α, l.mapIdx (fun i _ => g i) = (List.range l.length).map g := by
  intro l
  induction l generalizing g with
  | nil => rfl
  | cons a l ih =>
    rw [List.mapIdx_cons, List.length_cons, List.range_succ_eq_map, List.map_cons,
      List.map_map]
    exact congrArg (g 0 :: ·) (ih (fun i => g (i + 1)))

/-- Every cell of the positional fallback row is the placeholder or the
nonempty normalised text of the token at that position. -/
theorem fallback_cells (tokens : List StatToken) (labels : List String) (s : String)
    (hs : s ∈ labels.mapIdx (fun index _ =>
      let value := normalizeTokenText ((tokens[index]?).map (fun t => t.text))
      if value ≠ "" then value else EMPTY_VALUE_PLACEHOLDER)) :
    s = EMPTY_VALUE_PLACEHOLDER ∨
      ∃ t ∈ tokens, s = normalizeTokenText (some t.text) ∧ s ≠ "" := by
  rw [mapIdx_const_eq_range_map] at hs
  obtain ⟨i, _, hi⟩ := List.mem_map.mp hs
  by_cases hv : normalizeTokenText ((tokens[i]?).map (fun t => t.text)) = ""
  · left
    rw [← hi]
    simp only [hv, ne_eq, not_true_eq_false, if_false]
  · right
    cases ht : tokens[i]? with
    | none =>
      rw [ht] at hv
      exact absurd rfl hv
    | some t =>
      rw [ht] at hv hi
      simp only [Option.map_some'] at hv hi
      rw [if_pos hv] at hi
      exact ⟨t, List.getElem?_mem ht, hi.symm, hi ▸ hv⟩

/-- The positional fallback row length equals the label count. -/
theorem fallback_length (tokens : List StatToken) (labels : List String) :
    (labels.mapIdx (fun index _ =>
      let value := normalizeTokenText ((tokens[index]?).map (fun t => t.text))
      if value ≠ "" then value else EMPTY_VALUE_PLACEHOLDER)).length = labels.length := by
  rw [mapIdx_const_eq_range_map]
  rw [List.length_map, List.length_range]

/-- C5: every set-count's label list is nonempty, and for a nonempty label
list the mapper's output — whatever the anchors argument (absent,
length-mismatched, or matching) and whatever the token list — has exactly
`columnLabels.length` cells, and every cell is either the placeholder `"."`
or the nonempty normalised text of one of the tokens. -/
theorem c5_output_shape :
    (∀ n : ℤ, buildTableColumnLabels n ≠ []) ∧
    ∀ (columnLabels : List String), columnLabels ≠ [] →
      ∀ (tokens : List StatToken) (columnAnchors : Option (List Anchor)),
        (mapTokensToColumns tokens columnAnchors columnLabels).length =
            columnLabels.length ∧
          ∀ s ∈ mapTokensToColumns tokens columnAnchors columnLabels,
            s = EMPTY_VALUE_PLACEHOLDER ∨
              ∃ t ∈ tokens, s = normalizeTokenText (some t.text) ∧ s ≠ "" := by
  constructor
  · intro n
    unfold buildTableColumnLabels
    split <;> simp <;> decide
  intro columnLabels hne tokens columnAnchors
  cases columnAnchors with
  | none =>
    unfold mapTokensToColumns
    dsimp only
    rw [if_pos hne]
    exact ⟨fallback_length tokens columnLabels,
      fun s hs => fallback_cells tokens columnLabels s hs⟩
  | some anchors =>
    unfold mapTokensToColumns
    dsimp only
    rw [if_pos hne]
    by_cases hlen : anchors.length ≠ columnLabels.length
    · rw [if_pos hlen]
      exact ⟨fallback_length tokens columnLabels,
        fun s hs => fallback_cells tokens columnLabels s hs⟩
    · rw [if_neg hlen]
      push_neg at hlen
      constructor
      · rw [assignTokens_length, List.length_map]
      · intro s hs
        rcases assignTokens_cells anchors tokens _ _ s hs with h | ⟨t, ht, he, hne'⟩
        · obtain ⟨_, _, h'⟩ := List.mem_map.mp h
          exact Or.inl h'.symm
        · exact Or.inr ⟨t, ht, he, hne'⟩

/-- The positional fallback as claim C9 words it: the `i`-th stat token
(after stripping parentheses) fills the `i`-th column and missing or
empty positions get the placeholder `"."`. This definition follows the
claim's wording, to be compared with `mapTokensToColumns`. -/
def positionalFallback (tokens : List StatToken) (labels : List String) : List String :=
  (List.range labels.length).map (fun i =>
    let value := normalizeTokenText ((tokens[i]?).map (fun t => t.text))
    if value ≠ "" then value else EMPTY_VALUE_PLACEHOLDER)

/-- C9: with a nonempty label list, the mapper returns exactly the
positional fallback row both when no anchors are supplied and when the
anchor count differs from the label count; and when the header strategy
fails and no player has at least one nonempty stat token per label,
`inferColumnAnchors` returns `anchors = none` with the caller's set count —
a plain value, never an error. -/
theorem c9_silent_fallback :
    (∀ (tokens : List StatToken) (columnLabels : List String), columnLabels ≠ [] →
      mapTokensToColumns tokens none columnLabels =
        positionalFallback tokens columnLabels) ∧
    (∀ (tokens : List StatToken) (anchors : List Anchor) (columnLabels : List String),
      columnLabels ≠ [] → anchors.length ≠ columnLabels.length →
      mapTokensToColumns tokens (some anchors) columnLabels =
        positionalFallback tokens columnLabels) ∧
    ∀ (players : List PlayerRec) (lines : List Line) (cnt : ℤ),
      inferAnchorsFromHeader lines = none →
      ((players.map (fun p => p.statTokens.filter (fun t => jsTrim t.text ≠ ""))).filter
        (fun ts => (buildTableColumnLabels cnt).length ≤ ts.length)) = [] →
      inferColumnAnchors players lines cnt = ⟨none, cnt⟩ := by
  refine ⟨?_, ?_, ?_⟩
  · intro tokens columnLabels hne
    unfold mapTokensToColumns positionalFallback
    dsimp only
    rw [if_pos hne, mapIdx_const_eq_range_map]
  · intro tokens anchors columnLabels hne hlen
    unfold mapTokensToColumns positionalFallback
    dsimp only
    rw [if_pos hne, if_pos hlen, mapIdx_const_eq_range_map]
  · intro players lines cnt hinf hfilter
    unfold inferColumnAnchors
    rw [hinf]
    simp only [hfilter]
    by_cases hp : players.isEmpty
    · rw [if_pos hp]
    · rw [if_neg hp]
      rfl

/-! ### `detectMatchMetadata` (§4.6): date/time regexes and formatters

`DATE_REGEX = /(?:(?:date|data)\s*[:-]?\s*)?(\d{1,2}[-./]\d{1,2}[-./]\d{2,4})/i`.
The optional label prefix consumes only letters, whitespace and `:-` — never a
digit — while the captured group starts with a digit, so the group captured at
the regex's leftmost match is exactly the leftmost match of the bare date
pattern: a label character can never sit at the capture's start position, and
the prefix option at an earlier start must end exactly at that same first
digit.  The same argument applies to `TIME_REGEX`'s label prefix
(`time|hora|horário|horario` plus `\s`/`:-`): the embedded engines below
therefore implement the bare capture patterns with the regex's greedy
backtracking order. -/

/-- The character class `[-./]` of `DATE_REGEX` and of
`formatDateForInput`'s separator split. -/
def isDateSep (c : Char) : Bool := c = '.' || c = '/' || c = '-'

/-- Take exactly `n` leading digits. -/
def takeDigits : ℕ → List Char → Option (List Char × List Char)
  | 0, s => some ([], s)
  | _ + 1, [] => none
  | n + 1, c :: rest =>
    if c.isDigit then (takeDigits n rest).map (fun p => (c :: p.1, p.2)) else none

/-- `\d{2,4}`, greedy (4, then 3, then 2), ending the date pattern. -/
def matchDateD3 (pre : List Char) (s : List Char) : Option (List Char) :=
  match takeDigits 4 s with
  | some p => some (pre ++ p.1)
  | none =>
    match takeDigits 3 s with
    | some p => some (pre ++ p.1)
    | none =>
      match takeDigits 2 s with
      | some p => some (pre ++ p.1)
      | none => none

/-- The second `[-./]` then `\d{2,4}`. -/
def matchDateSep2 (pre : List Char) : List Char → Option (List Char)
  | [] => none
  | c :: rest => if isDateSep c then matchDateD3 (pre ++ [c]) rest else none

/-- The second `\d{1,2}` (greedy, with backtracking into the rest). -/
def matchDateD2 (pre : List Char) (s : List Char) : Option (List Char) :=
  (match takeDigits 2 s with
   | some p => matchDateSep2 (pre ++ p.1) p.2
   | none => none).orElse (fun _ =>
    match takeDigits 1 s with
    | some p => matchDateSep2 (pre ++ p.1) p.2
    | none => none)

/-- The first `[-./]` then the rest of the date pattern. -/
def matchDateSep1 (pre : List Char) : List Char → Option (List Char)
  | [] => none
  | c :: rest => if isDateSep c then matchDateD2 (pre ++ [c]) rest else none

/-- The bare date pattern `\d{1,2}[-./]\d{1,2}[-./]\d{2,4}` anchored at the
current position, greedy with backtracking. -/
def matchDateAt (s : List Char) : Option (List Char) :=
  (match takeDigits 2 s with
   | some p => matchDateSep1 p.1 p.2
   | none => none).orElse (fun _ =>
    match takeDigits 1 s with
    | some p => matchDateSep1 p.1 p.2
    | none => none)

/-- `DATE_REGEX.exec(text)`'s captured group: the leftmost match of the
bare date pattern. -/
def dateRegexExec : List Char → Option (List Char)
  | [] => none
  | c :: rest =>
    match matchDateAt (c :: rest) with
    | some m => some m
    | none => dateRegexExec rest

/-- JS `\w` (`[A-Za-z0-9_]`). -/
def isWordChar (c : Char) : Bool :=
  ('a' ≤ c && c ≤ 'z') || ('A' ≤ c && c ≤ 'Z') || c.isDigit || c = '_'

/-- `\b` placed after a character `last` with `rest` following. -/
def boundaryAfter (last : Char) : List Char → Bool
  | [] => isWordChar last
  | c :: _ => isWordChar last != isWordChar c

/-- The class `[:,h]` of `TIME_REGEX` (case-insensitive, so also `H`). -/
def isTimeSep (c : Char) : Bool := c = ':' || c = ',' || toLowerChar c = 'h'

/-- `(?:am|pm)?\b` (case-insensitive; `am` tried first, then `pm`, then the
empty alternative; `pre` is the capture so far and is nonempty). -/
def matchTimeTail (pre : List Char) (s : List Char) : Option (List Char) :=
  (match s with
   | a :: m :: r =>
     if toLowerChar a = 'a' && toLowerChar m = 'm' && boundaryAfter m r then
       some (pre ++ [a, m])
     else none
   | _ => none).orElse (fun _ =>
  (match s with
   | a :: m :: r =>
     if toLowerChar a = 'p' && toLowerChar m = 'm' && boundaryAfter m r then
       some (pre ++ [a, m])
     else none
   | _ => none).orElse (fun _ =>
    match pre.getLast? with
    | some last => if boundaryAfter last s then some pre else none
    | none => none))

/-- `\s*` before the meridiem, greedy (longest run first, backtracking one
whitespace character at a time). -/
def matchTimeSpaces (pre : List Char) : List Char → List Char → Option (List Char)
  | [], rest => matchTimeTail pre rest
  | c :: srest, rest =>
    (matchTimeSpaces (pre ++ [c]) srest rest).orElse (fun _ =>
      matchTimeTail pre (c :: srest ++ rest))

/-- Everything after the minutes: the optional `(?:[:,h]\d{2})?` seconds
(tried first), then `\s*(?:am|pm)?\b`. -/
def matchTimeRest (pre : List Char) (s : List Char) : Option (List Char) :=
  (match s with
   | c :: r =>
     if isTimeSep c then
       match takeDigits 2 r with
       | some p => matchTimeSpaces (pre ++ c :: p.1) (p.2.takeWhile isWsChar)
           (p.2.dropWhile isWsChar)
       | none => none
     else none
   | [] => none).orElse (fun _ =>
    matchTimeSpaces pre (s.takeWhile isWsChar) (s.dropWhile isWsChar))

/-- `[:,h]\d{2}` after the hour, then the rest of the time pattern. -/
def matchTimeAfterHour (pre : List Char) : List Char → Option (List Char)
  | [] => none
  | c :: r =>
    if isTimeSep c then
      match takeDigits 2 r with
      | some p => matchTimeRest (pre ++ c :: p.1) p.2
      | none => none
    else none

/-- The bare time pattern
`(?:[01]?\d|2[0-3])[:,h]\d{2}(?:[:,h]\d{2})?\s*(?:am|pm)?\b` anchored at the
current position (hour alternatives in the regex's order: two-digit `0…`/`1…`
first, then a single digit, then `2[0-3]`). -/
def matchTimeAt (s : List Char) : Option (List Char) :=
  (match s with
   | a :: b :: r =>
     if (a = '0' || a = '1') && b.isDigit then matchTimeAfterHour [a, b] r else none
   | _ => none).orElse (fun _ =>
  (match s with
   | a :: r => if a.isDigit then matchTimeAfterHour [a] r else none
   | [] => none).orElse (fun _ =>
    match s with
    | a :: b :: r =>
      if a = '2' && '0' ≤ b && b ≤ '3' then matchTimeAfterHour [a, b] r else none
    | _ => none))

/-- `TIME_REGEX.exec(text)`'s captured group: the leftmost match of the
bare time pattern. -/
def timeRegexExec : List Char → Option (List Char)
  | [] => none
  | c :: rest =>
    match matchTimeAt (c :: rest) with
    | some m => some m
    | none => timeRegexExec rest

/-- The final `if (day > 31 || month > 12) return null` and the
`` `${year}-${pad(month)}-${pad(day)}` `` template of `formatDateForInput`. -/
def formatDateCheck (day month year : ℕ) : Option String :=
  if 31 < day ∨ 12 < month then none
  else some (toString year ++ "-" ++ pad2 month ++ "-" ++ pad2 day)

/-- The `if (month > 12 && day <= 12) [day, month] = [month, day]` swap. -/
def formatDateSwap (day month year : ℕ) : Option String :=
  if 12 < month ∧ day ≤ 12 then formatDateCheck month day year
  else formatDateCheck day month year

/-- The numeric stage of `formatDateForInput`: the `!day || !month || !year`
falsy test (`none` inputs — JS `NaN` — are handled by the caller), the
two-digit-year pivot at 70, then swap and range check. -/
def formatDateParts (day month year : ℕ) : Option String :=
  if day = 0 ∨ month = 0 ∨ year = 0 then none
  else formatDateSwap day month
    (if year < 100 then (if 70 ≤ year then year + 1900 else year + 2000) else year)

/-- `formatDateForInput(rawDate)`: split on `[-./]`, trim the parts and drop
the empty ones, parse the first three as numbers (`none` models `NaN`, which
the falsy test also rejects), then pivot/swap/check. -/
def formatDateForInput (rawDate : String) : Option String :=
  if rawDate = "" then none
  else
    let parts := ((splitChunks isDateSep rawDate.toList).map
      (fun cs => jsTrim (String.mk cs))).filter (fun s => s ≠ "")
    if parts.length < 3 then none
    else
      match parseNatDigits (parts.getD 0 "").toList, parseNatDigits (parts.getD 1 "").toList,
          parseNatDigits (parts.getD 2 "").toList with
      | some day, some month, some year => formatDateParts day month year
      | _, _, _ => none

/-- The `trimmed.match(/(am|pm)$/)` meridiem lookup (on the already
lowercased string). -/
def meridiemOf (cs : List Char) : Option String :=
  match cs.reverse with
  | 'm' :: 'a' :: _ => some "am"
  | 'm' :: 'p' :: _ => some "pm"
  | _ => none

/-- `formatTimeForInput(rawTime)`: trim and lowercase, read the meridiem
suffix, strip it, turn `h` into `:`, drop all whitespace (after which the
source's final `.trim()` is the identity), split on `:` dropping empties,
parse hours and minutes (`?? 0`), apply the meridiem and `% 24`, and pad. -/
def formatTimeForInput (rawTime : String) : Option String :=
  if rawTime = "" then none
  else
    let trimmed := (jsToLower (jsTrim rawTime)).toList
    let meridiem := meridiemOf trimmed
    let numericPart := ((if meridiem.isSome then trimmed.dropLast.dropLast else trimmed).map
      (fun c => if c = 'h' then ':' else c)).filter (fun c => !isWsChar c)
    let segments := splitChunks (fun c => c = ':') numericPart
    if segments.isEmpty then none
    else
      match parseNatDigits (segments.getD 0 []),
          (if 1 < segments.length then parseNatDigits (segments.getD 1 []) else some 0) with
      | some hours, some minutes =>
        let hours := if meridiem = some "pm" ∧ hours < 12 then hours + 12 else hours
        let hours := if meridiem = some "am" ∧ hours = 12 then 0 else hours
        some (pad2 (hours % 24) ++ ":" ++ pad2 minutes)
      | _, _ => none

/-- The date a line contributes to the metadata scan: nothing for a blank
text, else the formatted first date match (`none` also when a match fails
formatting, in which case the loop keeps scanning). -/
def dateOfLine (line : Line) : Option String :=
  if getLineText line = "" then none
  else
    match dateRegexExec (getLineText line).toList with
    | some m => formatDateForInput (String.mk m)
    | none => none

/-- The time a line contributes to the metadata scan. -/
def timeOfLine (line : Line) : Option String :=
  if getLineText line = "" then none
  else
    match timeRegexExec (getLineText line).toList with
    | some m => formatTimeForInput (String.mk m)
    | none => none

/-- The `for (const line of lines)` loop of `detectMatchMetadata`, with its
`continue` on blank text, its `if (!detectedDate)` / `if (!detectedTime)`
guards and its `break` once both are set. -/
def detectAux : List Line → Option String → Option String → Option String × Option String
  | [], d, t => (d, t)
  | line :: rest, d, t =>
    if getLineText line = "" then detectAux rest d t
    else
      let d' := match d with
        | some _ => d
        | none =>
          match dateRegexExec (getLineText line).toList with
          | some m => formatDateForInput (String.mk m)
          | none => none
      let t' := match t with
        | some _ => t
        | none =>
          match timeRegexExec (getLineText line).toList with
          | some m => formatTimeForInput (String.mk m)
          | none => none
      if d'.isSome && t'.isSome then (d', t') else detectAux rest d' t'

/-- `detectMatchMetadata(lines)` as the pair `(date, time)`. -/
def detectMatchMetadata (lines : List Line) : Option String × Option String :=
  if lines.isEmpty then (none, none) else detectAux lines none none

/-- The metadata loop keeps, per component, the first line value it finds. -/
theorem detectAux_spec (ls : List Line) : ∀ d t : Option String,
    detectAux ls d t = (d.orElse (fun _ => ls.findSome? dateOfLine),
      t.orElse (fun _ => ls.findSome? timeOfLine)) := by
  induction ls with
  | nil =>
    intro d t
    cases d <;> cases t <;> rfl
  | cons line rest ih =>
    intro d t
    have hdf : (line :: rest).findSome? dateOfLine =
        (dateOfLine line).orElse (fun _ => rest.findSome? dateOfLine) := by
      rw [List.findSome?_cons]
      cases dateOfLine line <;> rfl
    have htf : (line :: rest).findSome? timeOfLine =
        (timeOfLine line).orElse (fun _ => rest.findSome? timeOfLine) := by
      rw [List.findSome?_cons]
      cases timeOfLine line <;> rfl
    unfold detectAux
    by_cases htext : getLineText line = ""
    · rw [if_pos htext, ih]
      have hd0 : dateOfLine line = none := by unfold dateOfLine; rw [if_pos htext]
      have ht0 : timeOfLine line = none := by unfold timeOfLine; rw [if_pos htext]
      rw [hdf, htf, hd0, ht0]
      rfl
    · rw [if_neg htext]
      have hd' : (match d with
          | some _ => d
          | none =>
            match dateRegexExec (getLineText line).toList with
            | some m => formatDateForInput (String.mk m)
            | none => none) = d.orElse (fun _ => dateOfLine line) := by
        cases d with
        | none =>
          show _ = dateOfLine line
          unfold dateOfLine
          rw [if_neg htext]
        | some _ => rfl
      have ht' : (match t with
          | some _ => t
          | none =>
            match timeRegexExec (getLineText line).toList with
            | some m => formatTimeForInput (String.mk m)
            | none => none) = t.orElse (fun _ => timeOfLine line) := by
        cases t with
        | none =>
          show _ = timeOfLine line
          unfold timeOfLine
          rw [if_neg htext]
        | some _ => rfl
      rw [hd', ht', hdf, htf]
      by_cases hboth : ((d.orElse (fun _ => dateOfLine line)).isSome &&
          (t.orElse (fun _ => timeOfLine line)).isSome) = true
      · rw [if_pos hboth]
        obtain ⟨hds, hts⟩ := Bool.and_eq_true_iff.mp hboth
        have h1 : d.orElse (fun _ => dateOfLine line) =
            d.orElse (fun _ =>
              (dateOfLine line).orElse (fun _ => rest.findSome? dateOfLine)) := by
          cases d with
          | some _ => rfl
          | none =>
            cases hdl : dateOfLine line with
            | some _ => rfl
            | none =>
              rw [hdl] at hds
              exact absurd hds (by decide)
        have h2 : t.orElse (fun _ => timeOfLine line) =
            t.orElse (fun _ =>
              (timeOfLine line).orElse (fun _ => rest.findSome? timeOfLine)) := by
          cases t with
          | some _ => rfl
          | none =>
            cases htl : timeOfLine line with
            | some _ => rfl
            | none =>
              rw [htl] at hts
              exact absurd hts (by decide)
        rw [← h1, ← h2]
      · rw [if_neg hboth, ih]
        have h1 : (d.orElse (fun _ => dateOfLine line)).orElse
              (fun _ => rest.findSome? dateOfLine) =
            d.orElse (fun _ =>
              (dateOfLine line).orElse (fun _ => rest.findSome? dateOfLine)) := by
          cases d <;> rfl
        have h2 : (t.orElse (fun _ => timeOfLine line)).orElse
              (fun _ => rest.findSome? timeOfLine) =
            t.orElse (fun _ =>
              (timeOfLine line).orElse (fun _ => rest.findSome? timeOfLine)) := by
          cases t <;> rfl
        rw [h1, h2]

/-- C8: the metadata scan takes, independently for the date and the time,
the first line whose text yields a formatted value; the date formatter
swaps day and month exactly when the parsed month exceeds 12 and the day
does not, and pivots two-digit years at 70 (`≥ 70` → 1900s, `< 70` →
2000s); am/pm times are converted to 24-hour form; and on lines containing
`"Date: 15/03/24"` and `"Time: 7:30pm"` the result is
`("2024-03-15", "19:30")`. -/
theorem c8_match_metadata :
    (∀ lines : List Line,
      detectMatchMetadata lines =
        (lines.findSome? dateOfLine, lines.findSome? timeOfLine)) ∧
    (∀ day month year : ℕ, 12 < month → day ≤ 12 →
      formatDateParts day month year = formatDateParts month day year) ∧
    (∀ day month year : ℕ, 70 ≤ year → year < 100 →
      formatDateParts day month year = formatDateParts day month (year + 1900)) ∧
    (∀ day month year : ℕ, 0 < year → year < 70 →
      formatDateParts day month year = formatDateParts day month (year + 2000)) ∧
    formatTimeForInput "7:30pm" = some "19:30" ∧
    formatTimeForInput "12:15am" = some "00:15" ∧
    detectMatchMetadata [⟨100, 1, [⟨"Date: 15/03/24", 0, 10, 10⟩]⟩,
        ⟨120, 1, [⟨"Time: 7:30pm", 0, 10, 10⟩]⟩] =
      (some "2024-03-15", some "19:30") := by
  refine ⟨?_, ?_, ?_, ?_, ?_, ?_, ?_⟩
  · intro lines
    cases lines with
    | nil => rfl
    | cons l rest =>
      show detectAux (l :: rest) none none = _
      rw [detectAux_spec]
      rfl
  · intro day month year hm hd
    unfold formatDateParts
    rcases Nat.eq_zero_or_pos day with hday | hday
    · rw [if_pos (Or.inl hday), if_pos (Or.inr (Or.inl hday))]
    rcases Nat.eq_zero_or_pos year with hyear | hyear
    · rw [if_pos (Or.inr (Or.inr hyear)), if_pos (Or.inr (Or.inr hyear))]
    have hzL : ¬(day = 0 ∨ month = 0 ∨ year = 0) := by push_neg; exact ⟨by omega, by omega, by omega⟩
    have hzR : ¬(month = 0 ∨ day = 0 ∨ year = 0) := by push_neg; exact ⟨by omega, by omega, by omega⟩
    rw [if_neg hzL, if_neg hzR]
    unfold formatDateSwap
    have hswL : 12 < month ∧ day ≤ 12 := ⟨hm, hd⟩
    have hswR : ¬(12 < day ∧ month ≤ 12) := fun h => absurd h.1 (by omega)
    rw [if_pos hswL, if_neg hswR]
  · intro day month year h70 h100
    unfold formatDateParts
    by_cases hdm : day = 0 ∨ month = 0
    · rcases hdm with h | h
      · rw [if_pos (Or.inl h), if_pos (Or.inl h)]
      · rw [if_pos (Or.inr (Or.inl h)), if_pos (Or.inr (Or.inl h))]
    push_neg at hdm
    have hzL : ¬(day = 0 ∨ month = 0 ∨ year = 0) := by
      push_neg; exact ⟨hdm.1, hdm.2, by omega⟩
    have hzR : ¬(day = 0 ∨ month = 0 ∨ year + 1900 = 0) := by
      push_neg; exact ⟨hdm.1, hdm.2, by omega⟩
    rw [if_neg hzL, if_neg hzR]
    have h1 : (if year < 100 then (if 70 ≤ year then year + 1900 else year + 2000)
        else year) = year + 1900 := by
      rw [if_pos h100, if_pos h70]
    have h2 : (if year + 1900 < 100 then
        (if 70 ≤ year + 1900 then year + 1900 + 1900 else year + 1900 + 2000)
        else year + 1900) = year + 1900 := by
      rw [if_neg (show ¬year + 1900 < 100 by omega)]
    rw [h1, h2]
  · intro day month year h0 h70
    unfold formatDateParts
    by_cases hdm : day = 0 ∨ month = 0
    · rcases hdm with h | h
      · rw [if_pos (Or.inl h), if_pos (Or.inl h)]
      · rw [if_pos (Or.inr (Or.inl h)), if_pos (Or.inr (Or.inl h))]
    push_neg at hdm
    have hzL : ¬(day = 0 ∨ month = 0 ∨ year = 0) := by
      push_neg; exact ⟨hdm.1, hdm.2, by omega⟩
    have hzR : ¬(day = 0 ∨ month = 0 ∨ year + 2000 = 0) := by
      push_neg; exact ⟨hdm.1, hdm.2, by omega⟩
    rw [if_neg hzL, if_neg hzR]
    have h1 : (if year < 100 then (if 70 ≤ year then year + 1900 else year + 2000)
        else year) = year + 2000 := by
      rw [if_pos (show year < 100 by omega), if_neg (show ¬70 ≤ year by omega)]
    have h2 : (if year + 2000 < 100 then
        (if 70 ≤ year + 2000 then year + 2000 + 1900 else year + 2000 + 2000)
        else year + 2000) = year + 2000 := by
      rw [if_neg (show ¬year + 2000 < 100 by omega)]
    rw [h1, h2]
  · with_unfolding_all decide
  · with_unfolding_all decide
  · with_unfolding_all decide

/-! ### `detectTeamHeader` and `extractPlayers` (§4.2) -/

/-- The alternatives of `TEAM_HEADER_EXCLUSION_REGEX =
/(vote|points|serve|reception|attack|tot|err|pos%|coach|set)/i`. -/
def teamKeywords : List String :=
  ["vote", "points", "serve", "reception", "attack", "tot", "err", "pos%", "coach", "set"]

/-- Leftmost index at which one of the keywords starts (`exec(lower).index`;
the input is already lowercased, so the alternatives are literal). -/
def keywordIndexAux : List Char → ℕ → Option ℕ
  | [], _ => none
  | c :: rest, i =>
    if teamKeywords.any (fun k => k.toList.isPrefixOf (c :: rest)) then some i
    else keywordIndexAux rest (i + 1)

/-- `TEAM_HEADER_EXCLUSION_REGEX.exec(lower)?.index`. -/
def keywordIndex (cs : List Char) : Option ℕ := keywordIndexAux cs 0

/-- `.replace(/\s*\d+\s*-\s*\d+\s*$/, "")`: the pattern is anchored at the
end and its classes (whitespace, digit, `-`) are disjoint, so the single
leftmost match — when there is one — is read off the reversed string:
trailing whitespace, a digit run, whitespace, `-`, whitespace, a digit run,
and finally the whole whitespace run before it (leftmost start). -/
def stripScoreSuffix (cs : List Char) : List Char :=
  let r1 := cs.reverse.dropWhile isWsChar
  let d1 := r1.takeWhile Char.isDigit
  let r2 := r1.dropWhile Char.isDigit
  if d1.isEmpty then cs
  else
    match r2.dropWhile isWsChar with
    | '-' :: r4 =>
      let r5 := r4.dropWhile isWsChar
      let d2 := r5.takeWhile Char.isDigit
      let r6 := r5.dropWhile Char.isDigit
      if d2.isEmpty then cs else (r6.dropWhile isWsChar).reverse
    | _ => cs

/-- `.replace(/\d+$/, "")`. -/
def stripTrailingDigits (cs : List Char) : List Char :=
  (cs.reverse.dropWhile Char.isDigit).reverse

/-- `.replace(/\d+/g, " ")`: every maximal digit run becomes one space (the
`Bool` flag marks being inside an already-replaced run). -/
def replaceDigitRunsAux : Bool → List Char → List Char
  | _, [] => []
  | inRun, c :: rest =>
    if c.isDigit then
      if inRun then replaceDigitRunsAux true rest
      else ' ' :: replaceDigitRunsAux true rest
    else c :: replaceDigitRunsAux false rest

/-- `.replace(/\d+/g, " ")`. -/
def replaceDigitRuns (cs : List Char) : List Char := replaceDigitRunsAux false cs

/-- `isValidChunk = (chunk) => /^[A-ZÀ-Ú0-9][A-Za-zÀ-ú0-9' ]*$/.test(chunk)`
(the literal ranges `À`-`Ú` and `À`-`ú` are the code-point intervals
`0xC0`-`0xDA` and `0xC0`-`0xFA`). -/
def isValidChunk (s : String) : Bool :=
  match s.toList with
  | [] => false
  | c :: rest =>
    (('A' ≤ c && c ≤ 'Z') || (0xC0 ≤ c.toNat && c.toNat ≤ 0xDA) || c.isDigit) &&
      rest.all (fun d =>
        ('A' ≤ d && d ≤ 'Z') || ('a' ≤ d && d ≤ 'z') ||
        (0xC0 ≤ d.toNat && d.toNat ≤ 0xFA) || d.isDigit || d = '\'' || d = ' ')

/-- `detectTeamHeader(text)`: collapse and trim, cut everything from the
first exclusion keyword on, strip a trailing `N - M` score and trailing
digits, blank out the remaining digit runs, then either split on `-` into
valid chunks rejoined with `" - "`, or accept the whole cleaned text as one
valid chunk. -/
def detectTeamHeader (text : String) : Option String :=
  if text = "" then none
  else
    let normalized := jsTrim (String.mk (collapseWs text.toList))
    if normalized = "" then none
    else
      let lower := jsToLower normalized
      let trimmedBeforeKeywords :=
        match keywordIndex lower.toList with
        | some i => jsTrim (String.mk (normalized.toList.take i))
        | none => normalized
      if trimmedBeforeKeywords = "" then none
      else
        let withoutScores := jsTrim (String.mk
          (stripTrailingDigits (stripScoreSuffix trimmedBeforeKeywords.toList)))
        if withoutScores = "" then none
        else
          let cleanText := jsTrim (String.mk (collapseWs (replaceDigitRuns withoutScores.toList)))
          if containsSub cleanText "-" then
            let parts := (((splitChunks (fun c => c = '-') cleanText.toList).map
              (fun cs => jsTrim (String.mk cs))).filter (fun s => s ≠ "")).filter isValidChunk
            if 1 ≤ parts.length then some (joinSep " - " parts) else none
          else if isValidChunk cleanText then some cleanText else none

/-- A player record tagged with its team (`{ ...possiblePlayer, team }`). -/
structure TaggedPlayer where
  player : PlayerRec
  team : String
deriving DecidableEq, Inhabited

/-- The `{ players, lastPlayerLineIndex }` result of `extractPlayers`
(`lastPlayerLineIndex` starts at `-1`, hence `ℤ`). -/
structure ExtractResult where
  players : List TaggedPlayer
  lastPlayerLineIndex : ℤ
deriving DecidableEq, Inhabited

/-- The `for (let index = 0; …)` loop of `extractPlayers`.  The JS
`if (!currentTeam) continue` falsy test coincides with the `Option` match
because `detectTeamHeader` never returns the empty string (a valid chunk is
nonempty and so is a `" - "`-join of at least one nonempty part). -/
def extractPlayersAux : List Line → ℕ → Option String → ℤ → ℕ → List TaggedPlayer →
    ExtractResult
  | [], _, _, lastIdx, _, acc => ⟨acc, lastIdx⟩
  | line :: rest, index, currentTeam, lastIdx, cnt, acc =>
    let text := getLineText line
    if text = "" then extractPlayersAux rest (index + 1) currentTeam lastIdx cnt acc
    else if containsSub (jsToLower text) "players total" then
      if 2 ≤ cnt + 1 then ⟨acc, if 0 ≤ lastIdx then lastIdx else (index : ℤ) - 1⟩
      else extractPlayersAux rest (index + 1) none lastIdx (cnt + 1) acc
    else
      match detectTeamHeader text with
      | some teamHeader => extractPlayersAux rest (index + 1) (some teamHeader) lastIdx cnt acc
      | none =>
        if isSectionTerminator text then extractPlayersAux rest (index + 1) none lastIdx cnt acc
        else
          match currentTeam with
          | none => extractPlayersAux rest (index + 1) currentTeam lastIdx cnt acc
          | some teamName =>
            match parsePlayerLine line with
            | none => extractPlayersAux rest (index + 1) currentTeam lastIdx cnt acc
            | some p =>
              extractPlayersAux rest (index + 1) currentTeam (index : ℤ) cnt
                (acc ++ [⟨p, teamName⟩])

/-- `extractPlayers(lines)`. -/
def extractPlayers (lines : List Line) : ExtractResult :=
  extractPlayersAux lines 0 none (-1) 0 []

/-- A line that takes the `"players total"` branch of the loop: nonblank
text containing `"players total"` case-insensitively. -/
def isPlayersTotal (line : Line) : Bool :=
  getLineText line ≠ "" && containsSub (jsToLower (getLineText line)) "players total"

/-- The team state after a non-returning line. -/
def stepTeam (line : Line) (t : Option String) : Option String :=
  let text := getLineText line
  if text = "" then t
  else if containsSub (jsToLower text) "players total" then none
  else
    match detectTeamHeader text with
    | some h => some h
    | none => if isSectionTerminator text then none else t

/-- The player (with its team) a line emits, if any. -/
def emitsPlayer (line : Line) (t : Option String) : Option (PlayerRec × String) :=
  let text := getLineText line
  if text = "" then none
  else if containsSub (jsToLower text) "players total" then none
  else
    match detectTeamHeader text with
    | some _ => none
    | none =>
      if isSectionTerminator text then none
      else
        match t with
        | none => none
        | some teamName =>
          match parsePlayerLine line with
          | none => none
          | some p => some (p, teamName)

/-- Definitional unfolding of one loop iteration. -/
theorem extractPlayersAux_cons (line : Line) (rest : List Line) (index : ℕ)
    (currentTeam : Option String) (lastIdx : ℤ) (cnt : ℕ) (acc : List TaggedPlayer) :
    extractPlayersAux (line :: rest) index currentTeam lastIdx cnt acc =
      (if getLineText line = "" then extractPlayersAux rest (index + 1) currentTeam lastIdx cnt acc
      else if containsSub (jsToLower (getLineText line)) "players total" then
        if 2 ≤ cnt + 1 then ⟨acc, if 0 ≤ lastIdx then lastIdx else (index : ℤ) - 1⟩
        else extractPlayersAux rest (index + 1) none lastIdx (cnt + 1) acc
      else
        match detectTeamHeader (getLineText line) with
        | some teamHeader => extractPlayersAux rest (index + 1) (some teamHeader) lastIdx cnt acc
        | none =>
          if isSectionTerminator (getLineText line) then
            extractPlayersAux rest (index + 1) none lastIdx cnt acc
          else
            match currentTeam with
            | none => extractPlayersAux rest (index + 1) currentTeam lastIdx cnt acc
            | some teamName =>
              match parsePlayerLine line with
              | none => extractPlayersAux rest (index + 1) currentTeam lastIdx cnt acc
              | some p =>
                extractPlayersAux rest (index + 1) currentTeam (index : ℤ) cnt
                  (acc ++ [⟨p, teamName⟩])) := rfl

/-- The second `"players total"` line returns immediately: the players so
far, with the carried index when a player was emitted and the previous
line's index otherwise — whatever follows is never scanned. -/
theorem extractPlayersAux_return (line : Line) (rest : List Line) (index : ℕ)
    (currentTeam : Option String) (lastIdx : ℤ) (cnt : ℕ) (acc : List TaggedPlayer)
    (hpt : isPlayersTotal line = true) (hcnt : 1 ≤ cnt) :
    extractPlayersAux (line :: rest) index currentTeam lastIdx cnt acc =
      ⟨acc, if 0 ≤ lastIdx then lastIdx else (index : ℤ) - 1⟩ := by
  have h12 : getLineText line ≠ "" ∧
      containsSub (jsToLower (getLineText line)) "players total" = true := by
    simpa [isPlayersTotal] using hpt
  rw [extractPlayersAux_cons, if_neg h12.1, if_pos h12.2, if_pos (by omega)]

/-- A non-returning line advances the scan by one step described by
`stepTeam`, `isPlayersTotal` and `emitsPlayer`. -/
theorem extractPlayersAux_step (line : Line) (rest : List Line) (index : ℕ)
    (currentTeam : Option String) (lastIdx : ℤ) (cnt : ℕ) (acc : List TaggedPlayer)
    (h : isPlayersTotal line = false ∨ cnt = 0) :
    extractPlayersAux (line :: rest) index currentTeam lastIdx cnt acc =
      extractPlayersAux rest (index + 1) (stepTeam line currentTeam)
        (match emitsPlayer line currentTeam with
         | some _ => (index : ℤ)
         | none => lastIdx)
        (if isPlayersTotal line then cnt + 1 else cnt)
        (match emitsPlayer line currentTeam with
         | some pt => acc ++ [⟨pt.1, pt.2⟩]
         | none => acc) := by
  rw [extractPlayersAux_cons]
  by_cases htext : getLineText line = ""
  · have hptl : isPlayersTotal line = false := by simp [isPlayersTotal, htext]
    have h1 : stepTeam line currentTeam = currentTeam := by
      unfold stepTeam; rw [if_pos htext]
    have h2 : emitsPlayer line currentTeam = none := by
      unfold emitsPlayer; rw [if_pos htext]
    rw [if_pos htext, h1, h2, hptl]
    rfl
  · by_cases hpt : containsSub (jsToLower (getLineText line)) "players total"
    · have hptl : isPlayersTotal line = true := by
        simp [isPlayersTotal, htext, hpt]
      have hcnt : cnt = 0 := by
        rcases h with h | h
        · rw [hptl] at h; cases h
        · exact h
      subst hcnt
      have h1 : stepTeam line currentTeam = none := by
        unfold stepTeam; rw [if_neg htext, if_pos hpt]
      have h2 : emitsPlayer line currentTeam = none := by
        unfold emitsPlayer; rw [if_neg htext, if_pos hpt]
      rw [if_neg htext, if_pos hpt, if_neg (by omega : ¬(2 ≤ 0 + 1)), h1, h2, hptl]
      rfl
    · have hptl : isPlayersTotal line = false := by simp [isPlayersTotal, hpt]
      rw [if_neg htext, if_neg hpt]
      cases hdet : detectTeamHeader (getLineText line) with
      | some hh =>
        have h1 : stepTeam line currentTeam = some hh := by
          unfold stepTeam; rw [if_neg htext, if_neg hpt, hdet]
        have h2 : emitsPlayer line currentTeam = none := by
          unfold emitsPlayer; rw [if_neg htext, if_neg hpt, hdet]
        rw [h1, h2, hptl]
        rfl
      | none =>
        by_cases hterm : isSectionTerminator (getLineText line) = true
        · have h1 : stepTeam line currentTeam = none := by
            unfold stepTeam; rw [if_neg htext, if_neg hpt, hdet, if_pos hterm]
          have h2 : emitsPlayer line currentTeam = none := by
            unfold emitsPlayer; rw [if_neg htext, if_neg hpt, hdet, if_pos hterm]
          rw [if_pos hterm, h1, h2, hptl]
          rfl
        · have hterm' : isSectionTerminator (getLineText line) = false :=
            Bool.eq_false_iff.mpr hterm
          cases currentTeam with
          | none =>
            have h1 : stepTeam line none = none := by
              unfold stepTeam; rw [if_neg htext, if_neg hpt, hdet, if_neg hterm]
            have h2 : emitsPlayer line none = none := by
              unfold emitsPlayer; rw [if_neg htext, if_neg hpt, hdet, if_neg hterm]
            rw [if_neg hterm, h1, h2, hptl]
            rfl
          | some teamName =>
            cases hparse : parsePlayerLine line with
            | none =>
              have h1 : stepTeam line (some teamName) = some teamName := by
                unfold stepTeam; rw [if_neg htext, if_neg hpt, hdet, if_neg hterm]
              have h2 : emitsPlayer line (some teamName) = none := by
                unfold emitsPlayer
                rw [if_neg htext, if_neg hpt, hdet, if_neg hterm, hparse]
              rw [if_neg hterm, h1, h2, hptl]
              rfl
            | some p =>
              have h1 : stepTeam line (some teamName) = some teamName := by
                unfold stepTeam; rw [if_neg htext, if_neg hpt, hdet, if_neg hterm]
              have h2 : emitsPlayer line (some teamName) = some (p, teamName) := by
                unfold emitsPlayer
                rw [if_neg htext, if_neg hpt, hdet, if_neg hterm, hparse]
              rw [if_neg hterm, h1, h2, hptl]
              rfl

/-- An emitted player is the line's parse. -/
theorem emitsPlayer_parse (line : Line) (t : Option String) (p : PlayerRec) (tn : String)
    (h : emitsPlayer line t = some (p, tn)) : parsePlayerLine line = some p := by
  unfold emitsPlayer at h
  by_cases htext : getLineText line = ""
  · rw [if_pos htext] at h; cases h
  rw [if_neg htext] at h
  by_cases hpt : containsSub (jsToLower (getLineText line)) "players total"
  · rw [if_pos hpt] at h; cases h
  rw [if_neg hpt] at h
  cases hdet : detectTeamHeader (getLineText line) with
  | some hh => rw [hdet] at h; cases h
  | none =>
    rw [hdet] at h
    by_cases hterm : isSectionTerminator (getLineText line) = true
    · rw [if_pos hterm] at h; cases h
    rw [if_neg hterm] at h
    cases t with
    | none => cases h
    | some teamName =>
      cases hparse : parsePlayerLine line with
      | none => rw [hparse] at h; cases h
      | some q =>
        rw [hparse] at h
        injection h with h'
        have hq : q = p := congrArg Prod.fst h'
        rw [hq]

/-- Once the scan has already seen one `"players total"` line, the lines
after the next one are irrelevant: the scan returns there. -/
theorem extract_junk_aux (l : Line) (rest : List Line) (hl : isPlayersTotal l = true) :
    ∀ (pre : List Line) (index : ℕ) (t : Option String) (lastIdx : ℤ) (cnt : ℕ)
      (acc : List TaggedPlayer),
      (pre.filter isPlayersTotal).length + cnt = 1 →
      extractPlayersAux (pre ++ l :: rest) index t lastIdx cnt acc =
        extractPlayersAux (pre ++ [l]) index t lastIdx cnt acc := by
  intro pre
  induction pre with
  | nil =>
    intro index t lastIdx cnt acc hcnt
    simp only [List.filter_nil, List.length_nil, Nat.zero_add] at hcnt
    rw [List.nil_append, List.nil_append,
      extractPlayersAux_return l rest index t lastIdx cnt acc hl (by omega),
      extractPlayersAux_return l [] index t lastIdx cnt acc hl (by omega)]
  | cons p pre' ih =>
    intro index t lastIdx cnt acc hcnt
    have hstep : isPlayersTotal p = false ∨ cnt = 0 := by
      by_cases hp : isPlayersTotal p = true
      · right
        rw [List.filter_cons, if_pos hp] at hcnt
        simp only [List.length_cons] at hcnt
        omega
      · left; exact Bool.eq_false_iff.mpr hp
    rw [List.cons_append, List.cons_append,
      extractPlayersAux_step p _ index t lastIdx cnt acc hstep,
      extractPlayersAux_step p _ index t lastIdx cnt acc hstep]
    apply ih
    by_cases hp : isPlayersTotal p = true
    · rw [List.filter_cons, if_pos hp] at hcnt
      simp only [List.length_cons] at hcnt
      simp only [hp, if_true]
      omega
    · rw [List.filter_cons, if_neg hp] at hcnt
      simp only [Bool.eq_false_iff.mpr hp, Bool.false_eq_true, if_false]
      omega

/-- The index returned at the second `"players total"` line is strictly
smaller than that line's own index. -/
theorem extract_cutoff_aux (l : Line) (rest : List Line) (hl : isPlayersTotal l = true) :
    ∀ (pre : List Line) (index : ℕ) (t : Option String) (lastIdx : ℤ) (cnt : ℕ)
      (acc : List TaggedPlayer),
      (pre.filter isPlayersTotal).length + cnt = 1 →
      lastIdx < (index : ℤ) →
      (extractPlayersAux (pre ++ l :: rest) index t lastIdx cnt acc).lastPlayerLineIndex <
        (index : ℤ) + pre.length := by
  intro pre
  induction pre with
  | nil =>
    intro index t lastIdx cnt acc hcnt hlast
    simp only [List.filter_nil, List.length_nil, Nat.zero_add] at hcnt
    rw [List.nil_append,
      extractPlayersAux_return l rest index t lastIdx cnt acc hl (by omega)]
    show (if 0 ≤ lastIdx then lastIdx else (index : ℤ) - 1) < _
    simp only [List.length_nil, Nat.cast_zero, add_zero]
    split <;> omega
  | cons p pre' ih =>
    intro index t lastIdx cnt acc hcnt hlast
    have hstep : isPlayersTotal p = false ∨ cnt = 0 := by
      by_cases hp : isPlayersTotal p = true
      · right
        rw [List.filter_cons, if_pos hp] at hcnt
        simp only [List.length_cons] at hcnt
        omega
      · left; exact Bool.eq_false_iff.mpr hp
    rw [List.cons_append, extractPlayersAux_step p _ index t lastIdx cnt acc hstep]
    have hcnt' : (pre'.filter isPlayersTotal).length +
        (if isPlayersTotal p then cnt + 1 else cnt) = 1 := by
      by_cases hp : isPlayersTotal p = true
      · rw [List.filter_cons, if_pos hp] at hcnt
        simp only [List.length_cons] at hcnt
        simp only [hp, if_true]
        omega
      · rw [List.filter_cons, if_neg hp] at hcnt
        simp only [Bool.eq_false_iff.mpr hp, Bool.false_eq_true, if_false]
        omega
    have hlast' : (match emitsPlayer p t with
        | some _ => (index : ℤ)
        | none => lastIdx) < ((index + 1 : ℕ) : ℤ) := by
      cases emitsPlayer p t <;> push_cast <;> omega
    have := ih (index + 1) (stepTeam p t)
      (match emitsPlayer p t with
       | some _ => (index : ℤ)
       | none => lastIdx)
      (if isPlayersTotal p then cnt + 1 else cnt)
      (match emitsPlayer p t with
       | some pt => acc ++ [⟨pt.1, pt.2⟩]
       | none => acc)
      hcnt' hlast'
    simp only [List.length_cons] at this ⊢
    push_cast at this ⊢
    omega

/-- Invariant: the returned `lastPlayerLineIndex`, when any player was
emitted, is the index of the line whose parse is the last player of the
returned list. -/
theorem extract_emission_aux (L : List Line) :
    ∀ (rem : List Line) (index : ℕ) (t : Option String) (lastIdx : ℤ) (cnt : ℕ)
      (acc : List TaggedPlayer),
      L.drop index = rem →
      ((lastIdx = -1 ∧ acc = []) ∨
        (0 ≤ lastIdx ∧ lastIdx < (index : ℤ) ∧ ∃ pl : TaggedPlayer,
          acc.getLast? = some pl ∧
          parsePlayerLine (L.getD lastIdx.toNat default) = some pl.player)) →
      ((extractPlayersAux rem index t lastIdx cnt acc).players = [] ∨
        ∃ pl : TaggedPlayer,
          (extractPlayersAux rem index t lastIdx cnt acc).players.getLast? = some pl ∧
          0 ≤ (extractPlayersAux rem index t lastIdx cnt acc).lastPlayerLineIndex ∧
          parsePlayerLine (L.getD
              (extractPlayersAux rem index t lastIdx cnt acc).lastPlayerLineIndex.toNat
              default) = some pl.player) := by
  intro rem
  induction rem with
  | nil =>
    intro index t lastIdx cnt acc hrem hinv
    rcases hinv with ⟨_, hacc⟩ | ⟨h0, _, pl, hlast, hparse⟩
    · exact Or.inl hacc
    · exact Or.inr ⟨pl, hlast, h0, hparse⟩
  | cons line rest ih =>
    intro index t lastIdx cnt acc hrem hinv
    have hrem' : L.drop (index + 1) = rest := by
      rw [← List.drop_drop, hrem]
      rfl
    have hline : L.getD index default = line := by
      have h0 : (L.drop index)[0]? = L[index + 0]? := List.getElem?_drop L index 0
      rw [hrem] at h0
      have h1 : L[index]? = some line := by simpa using h0.symm
      rw [List.getD_eq_getElem?_getD, h1]
      rfl
    by_cases hret : isPlayersTotal line = true ∧ 1 ≤ cnt
    · rw [extractPlayersAux_return line rest index t lastIdx cnt acc hret.1 hret.2]
      rcases hinv with ⟨_, hacc⟩ | ⟨h0, _, pl, hlast, hparse⟩
      · exact Or.inl hacc
      · refine Or.inr ⟨pl, hlast, ?_, ?_⟩
        · show (0 : ℤ) ≤ if 0 ≤ lastIdx then lastIdx else (index : ℤ) - 1
          rw [if_pos h0]
          exact h0
        · show parsePlayerLine
              (L.getD (if 0 ≤ lastIdx then lastIdx else (index : ℤ) - 1).toNat default) =
            some pl.player
          rw [if_pos h0]
          exact hparse
    · have hstep : isPlayersTotal line = false ∨ cnt = 0 := by
        by_cases hp : isPlayersTotal line = true
        · right
          have : ¬(1 ≤ cnt) := fun hc => hret ⟨hp, hc⟩
          omega
        · left; exact Bool.eq_false_iff.mpr hp
      rw [extractPlayersAux_step line rest index t lastIdx cnt acc hstep]
      cases hemit : emitsPlayer line t with
      | none =>
        apply ih (index + 1) _ _ _ _ hrem'
        rcases hinv with ⟨h1, h2⟩ | ⟨h0, hlt, pl, hlast, hparse⟩
        · exact Or.inl ⟨h1, h2⟩
        · exact Or.inr ⟨h0, by push_cast; omega, pl, hlast, hparse⟩
      | some pt =>
        apply ih (index + 1) _ _ _ _ hrem'
        refine Or.inr ⟨by positivity, by push_cast; omega, ⟨pt.1, pt.2⟩,
          List.getLast?_concat acc, ?_⟩
        rw [Int.toNat_natCast, hline]
        exact emitsPlayer_parse line t pt.1 pt.2 hemit

/-- A team-header line of the C3 scenario. -/
def c3LineTeamA : Line := ⟨100, 1, [⟨"TEAM ALPHA", 0, 10, 10⟩]⟩

/-- A player line of the C3 scenario (the `"."` stat token keeps
`detectTeamHeader` from treating it as a header). -/
def c3LinePlayerA : Line :=
  ⟨90, 1, [⟨"7", 0, 5, 10⟩, ⟨"Ana", 10, 5, 10⟩, ⟨".", 20, 5, 10⟩, ⟨"12", 30, 5, 10⟩]⟩

/-- A `"players total"` line of the C3 scenario. -/
def c3LineTotal : Line := ⟨80, 1, [⟨"Players Total 45", 0, 10, 10⟩]⟩

/-- The second team header of the C3 scenario. -/
def c3LineTeamB : Line := ⟨70, 1, [⟨"TEAM BETA", 0, 10, 10⟩]⟩

/-- The second player line of the C3 scenario. -/
def c3LinePlayerB : Line :=
  ⟨60, 1, [⟨"9", 0, 5, 10⟩, ⟨"Eva", 10, 5, 10⟩, ⟨".", 20, 5, 10⟩, ⟨"3", 30, 5, 10⟩]⟩

/-- A line after the second `"players total"` line, never scanned. -/
def c3LineJunk : Line := ⟨40, 1, [⟨"junk line", 0, 10, 10⟩]⟩

/-- C3: the scan returns at the second `"players total"` line — every line
after it is irrelevant to the result; the returned cutoff is strictly before
that terminator line; whenever any player was emitted the cutoff is the
index of the line whose parse is the last returned player; the first
`"players total"` line only resets the current team and continues with the
occurrence counted; and on a concrete two-team scenario with a junk tail
the result is the two players with cutoff 4 (the second player's line), not
5 (the terminator). -/
theorem c3_players_total_cutoff :
    (∀ (pre : List Line) (l : Line) (rest : List Line),
      isPlayersTotal l = true → (pre.filter isPlayersTotal).length = 1 →
      extractPlayers (pre ++ l :: rest) = extractPlayers (pre ++ [l])) ∧
    (∀ (pre : List Line) (l : Line) (rest : List Line),
      isPlayersTotal l = true → (pre.filter isPlayersTotal).length = 1 →
      (extractPlayers (pre ++ l :: rest)).lastPlayerLineIndex < (pre.length : ℤ)) ∧
    (∀ L : List Line,
      (extractPlayers L).players = [] ∨
        ∃ pl : TaggedPlayer, (extractPlayers L).players.getLast? = some pl ∧
          0 ≤ (extractPlayers L).lastPlayerLineIndex ∧
          parsePlayerLine (L.getD (extractPlayers L).lastPlayerLineIndex.toNat default) =
            some pl.player) ∧
    (∀ (line : Line) (rest : List Line) (index : ℕ) (t : Option String) (lastIdx : ℤ)
        (acc : List TaggedPlayer),
      isPlayersTotal line = true →
      extractPlayersAux (line :: rest) index t lastIdx 0 acc =
        extractPlayersAux rest (index + 1) none lastIdx 1 acc) ∧
    extractPlayers [c3LineTeamA, c3LinePlayerA, c3LineTotal, c3LineTeamB, c3LinePlayerB,
        c3LineTotal, c3LineJunk] =
      ⟨[⟨⟨7, "Ana", [".", "12"], "7 Ana . 12", [⟨".", 20, 5, 10⟩, ⟨"12", 30, 5, 10⟩]⟩,
          "TEAM ALPHA"⟩,
        ⟨⟨9, "Eva", [".", "3"], "9 Eva . 3", [⟨".", 20, 5, 10⟩, ⟨"3", 30, 5, 10⟩]⟩,
          "TEAM BETA"⟩], 4⟩ := by
  refine ⟨?_, ?_, ?_, ?_, ?_⟩
  · intro pre l rest hl hcnt
    unfold extractPlayers
    exact extract_junk_aux l rest hl pre 0 none (-1) 0 [] (by omega)
  · intro pre l rest hl hcnt
    unfold extractPlayers
    have := extract_cutoff_aux l rest hl pre 0 none (-1) 0 [] (by omega) (by omega)
    simpa using this
  · intro L
    unfold extractPlayers
    exact extract_emission_aux L L 0 none (-1) 0 [] (by rw [List.drop_zero])
      (Or.inl ⟨rfl, rfl⟩)
  · intro line rest index t lastIdx acc hline
    have h12 : getLineText line ≠ "" ∧
        containsSub (jsToLower (getLineText line)) "players total" = true := by
      simpa [isPlayersTotal] using hline
    rw [extractPlayersAux_cons, if_neg h12.1, if_pos h12.2,
      if_neg (by omega : ¬(2 ≤ 0 + 1))]
  · with_unfolding_all decide

end Volley
